import Mathlib

/-!
# Verification of the SonarQube metrics exporter refresh engine

Shallow embedding of `src/sonarqube-etl/exporter.py`.  The refresh engine
(`SonarExporter.refresh_once` and its helpers `_list_projects`,
`_get_supported_metric_keys`, `_fetch_measures`) is translated into pure
Lean functions over an explicit exporter state.  Prometheus gauge families
are modelled as finitely-mutated maps `metric → (project_key, project_name) →
Option GVal`; Python's in-place mutation becomes explicit state passing, and
a Python exception escaping a step becomes the `false` component of the
result (the partially mutated state is returned alongside, matching the
semantics of an exception propagating out of a method that mutated `self`).
Floating point values are modelled as rationals; the distinguished
`float("nan")` written for missing measures is the `GVal.nan` constructor.
-/

namespace SonarETL

/-- The fixed configured metric key list `_METRIC_KEYS` (exporter.py lines 25-66). -/
def METRIC_KEYS : List String :=
  [ "ncloc",
    "line_coverage",
    "branch_coverage",
    "lines",
    "statements",
    "functions",
    "classes",
    "files",
    "directories",
    "comment_lines",
    "comment_lines_density",
    "complexity",
    "cognitive_complexity",
    "sqale_index",
    "blocker_violations",
    "critical_violations",
    "major_violations",
    "minor_violations",
    "info_violations",
    "bugs",
    "vulnerabilities",
    "code_smells",
    "coverage",
    "duplicated_lines_density",
    "security_hotspots",
    "reliability_rating",
    "security_rating",
    "sqale_rating" ]

/-- A gauge sample value: either the NaN sentinel written for a missing
measure (`float("nan")`, line 301) or an ordinary numeric value. -/
inductive GVal where
  | nan : GVal
  | num : ℚ → GVal
deriving DecidableEq

/-- A project yielded by `_list_projects` (lines 416-422): key and name both
present, non-empty, and the key matched the configured regex. -/
structure Project where
  key : String
  name : String
deriving DecidableEq

/-- One entry of a `/api/projects/search` page: `c.get("key")` /
`c.get("name")`, either of which may be missing (`None`). -/
structure Component where
  key : Option String
  name : Option String

/-- One entry of a `/api/metrics/search` page: `m.get("key")`; a missing or
non-string value is modelled as `none` (the code checks `isinstance(k, str)`). -/
structure CatalogEntry where
  key : Option String

/-- One entry of the `measures` array of `/api/measures/component`:
`m.get("metric")` and `m.get("value")`, each possibly missing. -/
structure MeasureEntry where
  metric : Option String
  value : Option String

/-- The upstream SonarQube server as seen by one refresh cycle: the pages
returned by the paginated project listing and metric catalog (a page request
that fails with a network/HTTP error is an `Except.error`; pages beyond the
end of the list are empty, which terminates the pagination loops), and the
measures response as a function of the project key and the requested metric
key list. -/
structure Upstream where
  project_pages : List (Except Unit (List Component))
  metric_pages : List (Except Unit (List CatalogEntry))
  measures : String → List String → Except Unit (List MeasureEntry)

/-- Labels of a per-project series: `(project_key, project_name)`. -/
abbrev Labels := String × String

/-- The per-project gauge store: for each metric key, the currently exposed
children of the `sonar_project_<key>` gauge family, as a partial map from
label tuple to value. -/
abbrev GStore := String → Labels → Option GVal

/-- The thirteen unlabeled global aggregate gauges (lines 105-171). -/
structure Aggregates where
  projects_total : ℚ
  ncloc_total : ℚ
  lines_total : ℚ
  statements_total : ℚ
  functions_total : ℚ
  classes_total : ℚ
  files_total : ℚ
  comment_lines_total : ℚ
  bugs_total : ℚ
  vulnerabilities_total : ℚ
  code_smells_total : ℚ
  projects_with_bugs_gt0 : ℚ
  projects_with_vulns_gt0 : ℚ
deriving DecidableEq

/-- The mutable state of a `SonarExporter` that the refresh cycle touches:
the per-project gauges, `_known_labelsets`, `_project_key_to_name`, the
global aggregate gauges, and the supported-metric-key cache. -/
structure ExporterState where
  gauges : GStore
  known_labelsets : String → Finset Labels
  project_key_to_name : String → Option String
  aggregates : Aggregates
  supported_metric_keys : Option (Finset String)
  supported_metric_keys_fetched_at : Option ℚ

/-- The zeroed local aggregate counters at the start of a cycle
(lines 264-278). -/
def init_aggregates : Aggregates :=
  ⟨0, 0, 0, 0, 0, 0, 0, 0, 0, 0, 0, 0, 0⟩

/-- The state of a freshly constructed exporter (`__init__`, lines 80-195):
no gauge children, empty known label sets, empty rename-tracking dict,
all aggregate gauges at their prometheus default 0, empty cache. -/
def init_state : ExporterState where
  gauges := fun _ _ => none
  known_labelsets := fun _ => ∅
  project_key_to_name := fun _ => none
  aggregates := init_aggregates
  supported_metric_keys := none
  supported_metric_keys_fetched_at := none

/-! ## Parsing of numeric measure values

`_fetch_measures` converts each raw value with Python's `float(raw)` and
drops the field when that raises.  We model `float` on the plain decimal
string forms SonarQube produces: an optional sign, an integer part, an
optional fractional part. -/

/-- Value of a digit string, `none` if any character is not a digit
(the empty string maps to `0`; emptiness is checked by the callers). -/
def digitsVal : List Char → Option ℕ :=
  List.foldl
    (fun acc c => acc.bind fun n => if c.isDigit then some (10 * n + (c.toNat - 48)) else none)
    (some 0)

/-- Model of Python's `float()` applied to a decimal string:
`[+|-] digits [. digits]` with at least one digit overall; anything else
fails (returns `none`, modelling the `ValueError`). -/
def pyFloat (s : String) : Option ℚ :=
  let core : List Char → Option ℚ := fun body =>
    let ip := body.takeWhile (fun c => c ≠ '.')
    match body.dropWhile (fun c => c ≠ '.') with
    | [] => if ip.isEmpty then none else (digitsVal ip).map (fun n => (n : ℚ))
    | _ :: fp =>
      if fp.any (fun c => c = '.') then none
      else if ip.isEmpty ∧ fp.isEmpty then none
      else
        match digitsVal ip, digitsVal fp with
        | some a, some b => some ((a : ℚ) + (b : ℚ) / (10 : ℚ) ^ fp.length)
        | _, _ => none
  match s.toList with
  | '-' :: body => (core body).map (fun q => -q)
  | '+' :: body => core body
  | body => core body

/-! ## `_list_projects` (lines 405-423) -/

/-- Conversion of one component of a project-search page into a yielded
project: skipped when the key or name is missing or empty (`if not key or
not name: continue`) or when the key does not match the configured regex
(`matchKey` stands for `self._project_key_re.match`). -/
def component_project (matchKey : String → Bool) (c : Component) : Option Project :=
  match c.key, c.name with
  | some k, some n =>
    if k = "" ∨ n = "" then none
    else if matchKey k then some ⟨k, n⟩ else none
  | _, _ => none

/-- `list(self._list_projects())`: pull pages until a request fails (the
exception propagates: the whole listing fails) or a page comes back empty
(`if not components: return`). -/
def list_projects (matchKey : String → Bool) :
    List (Except Unit (List Component)) → Except Unit (List Project)
  | [] => .ok []
  | page :: rest =>
    match page with
    | .error e => .error e
    | .ok comps =>
      if comps.isEmpty then .ok []
      else
        match list_projects matchKey rest with
        | .error e => .error e
        | .ok ps => .ok (comps.filterMap (component_project matchKey) ++ ps)

/-! ## `_get_supported_metric_keys` (lines 370-403) -/

/-- Keys contributed by one metric-catalog page: `keys.add(k)` for every
entry whose `key` is a non-empty string. -/
def catalog_page_keys (ms : List CatalogEntry) (acc : Finset String) : Finset String :=
  ms.foldl
    (fun ks m =>
      match m.key with
      | some k => if k = "" then ks else insert k ks
      | none => ks)
    acc

/-- The pagination loop of `_get_supported_metric_keys`: accumulate keys
page by page until an empty page (`if not metrics: break`); a failed page
request propagates as an error. -/
def collect_metric_keys :
    List (Except Unit (List CatalogEntry)) → Finset String → Except Unit (Finset String)
  | [], acc => .ok acc
  | page :: rest, acc =>
    match page with
    | .error e => .error e
    | .ok ms =>
      if ms.isEmpty then .ok acc
      else collect_metric_keys rest (catalog_page_keys ms acc)

/-- The body of `_get_supported_metric_keys` past the cache check (lines
380-403): query the catalog page by page, fall back to the full configured
key list when the accumulated set is empty, and cache the result.  The
cache fields are written only after the whole query succeeds, so a failure
leaves the state unchanged. -/
def refresh_supported_keys (u : Upstream) (now : ℚ) (s : ExporterState) :
    Except Unit (Finset String × ExporterState) :=
  match collect_metric_keys u.metric_pages ∅ with
  | .error e => .error e
  | .ok ks =>
    let keys := if ks = ∅ then METRIC_KEYS.toFinset else ks
    .ok (keys,
      { s with
        supported_metric_keys := some keys
        supported_metric_keys_fetched_at := some now })

/-- `_get_supported_metric_keys`: return the cached set when it was fetched
less than 3600 seconds ago; otherwise re-query the catalog. -/
def get_supported_metric_keys (u : Upstream) (now : ℚ) (s : ExporterState) :
    Except Unit (Finset String × ExporterState) :=
  match s.supported_metric_keys, s.supported_metric_keys_fetched_at with
  | some cached, some t =>
    if now - t < 3600 then .ok (cached, s) else refresh_supported_keys u now s
  | _, _ => refresh_supported_keys u now s

/-! ## `_fetch_measures` (lines 425-450) -/

/-- One iteration of the `for m in measures` loop of `_fetch_measures`:
keep the field only when its `metric` is one of the configured keys and its
`value` is present and parses as a number; an unparsable value is skipped
(`except ... pass`). -/
def build_measures_step (out : String → Option ℚ) (m : MeasureEntry) : String → Option ℚ :=
  match m.metric, m.value with
  | some key, some raw =>
    if key ∈ METRIC_KEYS then
      match pyFloat raw with
      | some v => Function.update out key (some v)
      | none => out
    else out
  | _, _ => out

/-- Construction of the `out` dict from the `measures` array of the
response; later fields overwrite earlier ones with the same metric key. -/
def build_measures (entries : List MeasureEntry) : String → Option ℚ :=
  entries.foldl build_measures_step (fun _ => none)

/-- `_fetch_measures`: request only the configured keys that are in the
supported set; when that restriction is empty return an empty mapping
without issuing a request; a failed request propagates as an error. -/
def fetch_measures (u : Upstream) (supported : Finset String) (project_key : String) :
    Except Unit (String → Option ℚ) :=
  let requested := METRIC_KEYS.filter (fun k => k ∈ supported)
  if requested.isEmpty then .ok (fun _ => none)
  else
    match u.measures project_key requested with
    | .error e => .error e
    | .ok entries => .ok (build_measures entries)

/-! ## `refresh_once` (lines 254-362) -/

/-- The value written into a per-project gauge for one metric: the fetched
value, or the NaN sentinel when the measures dict has no entry for the key
(lines 298-303). -/
def measure_gval : Option ℚ → GVal
  | none => GVal.nan
  | some q => GVal.num q

/-- Rename handling (lines 285-293): when the project's key is already
known under a different name, remove the old `(key, prev_name)` child from
every configured metric's gauge (the per-metric removal loop, described
here pointwise on the store map), then record the current name.  Removal of
an absent child is a no-op (`except KeyError: pass`). -/
def rename_cleanup (p : Project) (s : ExporterState) : ExporterState :=
  let g : GStore :=
    match s.project_key_to_name p.key with
    | some prev =>
      if prev ≠ p.name then
        fun m t => if m ∈ METRIC_KEYS ∧ t = (p.key, prev) then none else s.gauges m t
      else s.gauges
    | none => s.gauges
  { s with
    gauges := g
    project_key_to_name := Function.update s.project_key_to_name p.key (some p.name) }

/-- The per-metric write loop for one project (lines 296-304), described
pointwise: every configured metric's gauge gets a child labelled with the
project's key and name holding the fetched value (NaN when absent). -/
def write_project (p : Project) (meas : String → Option ℚ) (g : GStore) : GStore :=
  fun m t =>
    if m ∈ METRIC_KEYS ∧ t = (p.key, p.name) then some (measure_gval (meas m)) else g m t

/-- `current_labels[metric_key].add((key, name))` for every configured
metric (line 304). -/
def add_current_labels (p : Project) (cl : String → Finset Labels) : String → Finset Labels :=
  fun m => if m ∈ METRIC_KEYS then insert (p.key, p.name) (cl m) else cl m

/-- The aggregate accumulation for one project (lines 306-331): every total
adds the fetched value with a missing value contributing 0 (`measures.get(k)
or 0.0`), and the two `> 0` counters increment when the (defaulted) value is
strictly positive. -/
def accumulate_aggregates (meas : String → Option ℚ) (a : Aggregates) : Aggregates where
  projects_total := a.projects_total + 1
  ncloc_total := a.ncloc_total + (meas "ncloc").getD 0
  lines_total := a.lines_total + (meas "lines").getD 0
  statements_total := a.statements_total + (meas "statements").getD 0
  functions_total := a.functions_total + (meas "functions").getD 0
  classes_total := a.classes_total + (meas "classes").getD 0
  files_total := a.files_total + (meas "files").getD 0
  comment_lines_total := a.comment_lines_total + (meas "comment_lines").getD 0
  bugs_total := a.bugs_total + (meas "bugs").getD 0
  vulnerabilities_total := a.vulnerabilities_total + (meas "vulnerabilities").getD 0
  code_smells_total := a.code_smells_total + (meas "code_smells").getD 0
  projects_with_bugs_gt0 :=
    a.projects_with_bugs_gt0 + (if 0 < (meas "bugs").getD 0 then 1 else 0)
  projects_with_vulns_gt0 :=
    a.projects_with_vulns_gt0 + (if 0 < (meas "vulnerabilities").getD 0 then 1 else 0)

/-- The per-project loop of `refresh_once` (lines 280-331).  Each iteration
performs the rename cleanup, fetches the project's measures, writes every
configured metric's series, records the label tuple, and accumulates the
aggregates.  A failing measures fetch propagates as the `false` flag, with
the state as mutated so far (the rename cleanup of the failing project
included) and the loop's local accumulators as they stood. -/
def process_projects (u : Upstream) (supported : Finset String) :
    List Project → ExporterState → (String → Finset Labels) → Aggregates →
      ExporterState × (String → Finset Labels) × Aggregates × Bool
  | [], s, cl, a => (s, cl, a, true)
  | p :: rest, s, cl, a =>
    let s1 := rename_cleanup p s
    match fetch_measures u supported p.key with
    | .error _ => (s1, cl, a, false)
    | .ok meas =>
      process_projects u supported rest
        { s1 with gauges := write_project p meas s1.gauges }
        (add_current_labels p cl)
        (accumulate_aggregates meas a)

/-- Publication of the global aggregates (lines 334-346): all thirteen
gauges are set from the cycle's counters. -/
def publish_aggregates (a : Aggregates) (s : ExporterState) : ExporterState :=
  { s with aggregates := a }

/-- End-of-cycle reconciliation (lines 348-356), described pointwise: for
every configured metric, every child whose label tuple is in
`known_labelsets[metric] - current_labels[metric]` is removed, and the
known label set is replaced by the current one. -/
def reconcile_labelsets (cl : String → Finset Labels) (s : ExporterState) : ExporterState where
  gauges := fun m t =>
    if m ∈ METRIC_KEYS ∧ t ∈ s.known_labelsets m \ cl m then none else s.gauges m t
  known_labelsets := fun m => if m ∈ METRIC_KEYS then cl m else s.known_labelsets m
  project_key_to_name := s.project_key_to_name
  aggregates := s.aggregates
  supported_metric_keys := s.supported_metric_keys
  supported_metric_keys_fetched_at := s.supported_metric_keys_fetched_at

/-- Pruning of `_project_key_to_name` (lines 358-362): drop every key not
present in the current cycle's catalog. -/
def prune_key_to_name (current_keys : List String) (f : String → Option String) :
    String → Option String :=
  fun k => if k ∈ current_keys then f k else none

/-- `refresh_once` (lines 254-362).  Returns the exporter state after the
cycle together with a success flag; `false` means an exception escaped
(caught by `refresh_forever`), and the returned state is the state as
mutated up to the point of failure. -/
def refresh_once (matchKey : String → Bool) (u : Upstream) (now : ℚ) (s : ExporterState) :
    ExporterState × Bool :=
  match list_projects matchKey u.project_pages with
  | .error _ => (s, false)
  | .ok projects =>
    match get_supported_metric_keys u now s with
    | .error _ => (s, false)
    | .ok (supported, s0) =>
      match process_projects u supported projects s0 (fun _ => ∅) init_aggregates with
      | (s1, _, _, false) => (s1, false)
      | (s1, cl, _agg, true) =>
        let s2 := publish_aggregates _agg s1
        let s3 := reconcile_labelsets cl s2
        ({ s3 with
            project_key_to_name :=
              prune_key_to_name (projects.map Project.key) s3.project_key_to_name },
          true)

end SonarETL

namespace SonarETL

/-! ## Small-step lemmas about the per-project loop -/

lemma rename_cleanup_known (p : Project) (s : ExporterState) :
    (rename_cleanup p s).known_labelsets = s.known_labelsets := rfl

lemma rename_cleanup_aggregates (p : Project) (s : ExporterState) :
    (rename_cleanup p s).aggregates = s.aggregates := rfl

lemma rename_cleanup_ktn (p : Project) (s : ExporterState) :
    (rename_cleanup p s).project_key_to_name
      = Function.update s.project_key_to_name p.key (some p.name) := rfl

/-- Pointwise behaviour of the rename-removal step on the gauge store. -/
lemma rename_cleanup_gauges_apply (p : Project) (s : ExporterState) (m : String) (t : Labels) :
    (rename_cleanup p s).gauges m t =
      match s.project_key_to_name p.key with
      | some prev =>
        if prev ≠ p.name ∧ m ∈ METRIC_KEYS ∧ t = (p.key, prev) then none else s.gauges m t
      | none => s.gauges m t := by
  unfold rename_cleanup
  cases s.project_key_to_name p.key with
  | none => rfl
  | some prev =>
    by_cases h : prev ≠ p.name
    · simp only [if_pos h]
      by_cases h2 : m ∈ METRIC_KEYS ∧ t = (p.key, prev)
      · simp [h, h2]
      · simp only [if_neg h2]
        rw [if_neg]
        intro hc
        exact h2 ⟨hc.2.1, hc.2.2⟩
    · simp [h]

/-- The rename step leaves every gauge child whose key differs from the
processed project's key untouched. -/
lemma rename_cleanup_gauges_ne_key {p : Project} {k : String} (h : k ≠ p.key)
    (s : ExporterState) (m : String) (x : String) :
    (rename_cleanup p s).gauges m (k, x) = s.gauges m (k, x) := by
  rw [rename_cleanup_gauges_apply]
  cases s.project_key_to_name p.key with
  | none => rfl
  | some prev =>
    simp only
    rw [if_neg]
    rintro ⟨-, -, ht⟩
    exact h (congrArg Prod.fst ht)

/-- When the tracked name equals the current name, the rename step does not
touch the gauges at all. -/
lemma rename_cleanup_gauges_same {p : Project} {s : ExporterState}
    (h : s.project_key_to_name p.key = some p.name) :
    (rename_cleanup p s).gauges = s.gauges := by
  unfold rename_cleanup
  rw [h]
  simp

/-- The rename step removes the old-name child for every configured metric. -/
lemma rename_cleanup_removes {p : Project} {s : ExporterState} {prev : String}
    (h : s.project_key_to_name p.key = some prev) (hne : prev ≠ p.name)
    {m : String} (hm : m ∈ METRIC_KEYS) :
    (rename_cleanup p s).gauges m (p.key, prev) = none := by
  rw [rename_cleanup_gauges_apply, h]
  simp [hne, hm]

lemma write_project_ne {p : Project} {t : Labels} (h : t ≠ (p.key, p.name))
    (meas : String → Option ℚ) (g : GStore) (m : String) :
    write_project p meas g m t = g m t := by
  unfold write_project
  rw [if_neg]
  rintro ⟨-, h2⟩
  exact h h2

lemma write_project_self (p : Project) (meas : String → Option ℚ) (g : GStore)
    {m : String} (hm : m ∈ METRIC_KEYS) :
    write_project p meas g m (p.key, p.name) = some (measure_gval (meas m)) := by
  unfold write_project
  rw [if_pos ⟨hm, rfl⟩]

lemma write_project_not_metric {m : String} (hm : m ∉ METRIC_KEYS) (p : Project)
    (meas : String → Option ℚ) (g : GStore) (t : Labels) :
    write_project p meas g m t = g m t := by
  unfold write_project
  rw [if_neg]
  rintro ⟨h1, -⟩
  exact hm h1

lemma rename_cleanup_not_metric {m : String} (hm : m ∉ METRIC_KEYS) (p : Project)
    (s : ExporterState) (t : Labels) :
    (rename_cleanup p s).gauges m t = s.gauges m t := by
  rw [rename_cleanup_gauges_apply]
  cases s.project_key_to_name p.key with
  | none => rfl
  | some prev =>
    simp only
    rw [if_neg]
    rintro ⟨-, h1, -⟩
    exact hm h1

/-! ## Structural lemmas about `process_projects` -/

/-- The per-project loop never touches the known label sets, the aggregate
gauges, or the supported-key cache (those are written only after the loop). -/
lemma process_projects_fields (u : Upstream) (sup : Finset String) :
    ∀ ps s cl a,
      (process_projects u sup ps s cl a).1.known_labelsets = s.known_labelsets
      ∧ (process_projects u sup ps s cl a).1.aggregates = s.aggregates
      ∧ (process_projects u sup ps s cl a).1.supported_metric_keys = s.supported_metric_keys
      ∧ (process_projects u sup ps s cl a).1.supported_metric_keys_fetched_at
          = s.supported_metric_keys_fetched_at
  | [], _, _, _ => ⟨rfl, rfl, rfl, rfl⟩
  | p :: rest, s, cl, a => by
    unfold process_projects
    cases hf : fetch_measures u sup p.key with
    | error e => exact ⟨rfl, rfl, rfl, rfl⟩
    | ok meas => exact process_projects_fields u sup rest _ _ _

/-- When every project's measures fetch succeeds, the loop succeeds. -/
lemma process_projects_ok (u : Upstream) (sup : Finset String)
    (meas : Project → String → Option ℚ) :
    ∀ ps s cl a, (∀ p ∈ ps, fetch_measures u sup p.key = .ok (meas p)) →
      (process_projects u sup ps s cl a).2.2.2 = true
  | [], _, _, _, _ => rfl
  | p :: rest, s, cl, a, h => by
    unfold process_projects
    rw [h p (List.mem_cons_self p rest)]
    exact process_projects_ok u sup meas rest _ _ _ (fun q hq => h q (List.mem_cons_of_mem p hq))

/-- When every project's measures fetch succeeds, the loop's aggregate
accumulator folds `accumulate_aggregates` over the project list. -/
lemma process_projects_agg (u : Upstream) (sup : Finset String)
    (meas : Project → String → Option ℚ) :
    ∀ ps s cl a, (∀ p ∈ ps, fetch_measures u sup p.key = .ok (meas p)) →
      (process_projects u sup ps s cl a).2.2.1
        = ps.foldl (fun acc p => accumulate_aggregates (meas p) acc) a
  | [], _, _, _, _ => rfl
  | p :: rest, s, cl, a, h => by
    unfold process_projects
    rw [h p (List.mem_cons_self p rest)]
    simp only [List.foldl_cons]
    exact process_projects_agg u sup meas rest _ _ _ (fun q hq => h q (List.mem_cons_of_mem p hq))

end SonarETL

namespace SonarETL

/-- Frame property: the loop never touches gauge children, nor the
rename-tracking entry, of a key that does not occur in the processed list
(this holds whether or not the loop fails mid-way). -/
lemma process_projects_frame (u : Upstream) (sup : Finset String) {k : String} :
    ∀ ps s cl a, k ∉ ps.map Project.key →
      (∀ m x, (process_projects u sup ps s cl a).1.gauges m (k, x) = s.gauges m (k, x))
      ∧ (process_projects u sup ps s cl a).1.project_key_to_name k = s.project_key_to_name k
  | [], _, _, _, _ => ⟨fun _ _ => rfl, rfl⟩
  | p :: rest, s, cl, a, hk => by
    simp only [List.map_cons, List.mem_cons, not_or] at hk
    obtain ⟨hk1, hk2⟩ := hk
    unfold process_projects
    cases hf : fetch_measures u sup p.key with
    | error e =>
      refine ⟨fun m x => rename_cleanup_gauges_ne_key hk1 s m x, ?_⟩
      rw [rename_cleanup_ktn, Function.update_noteq hk1]
    | ok meas =>
      obtain ⟨ih1, ih2⟩ := process_projects_frame u sup rest
        { rename_cleanup p s with gauges := write_project p meas (rename_cleanup p s).gauges }
        (add_current_labels p cl) (accumulate_aggregates meas a) hk2
      refine ⟨fun m x => ?_, ?_⟩
      · rw [ih1 m x]
        show write_project p meas (rename_cleanup p s).gauges m (k, x) = s.gauges m (k, x)
        rw [write_project_ne (by simp [Prod.ext_iff, hk1]) _ _ _,
          rename_cleanup_gauges_ne_key hk1 s m x]
      · rw [ih2]
        show Function.update s.project_key_to_name p.key (some p.name) k
          = s.project_key_to_name k
        rw [Function.update_noteq hk1]

/-- One-step unfolding of the loop on an empty list. -/
lemma process_projects_nil (u : Upstream) (sup : Finset String) (s : ExporterState)
    (cl : String → Finset Labels) (a : Aggregates) :
    process_projects u sup [] s cl a = (s, cl, a, true) := rfl

/-- One-step unfolding of the loop on a non-empty list. -/
lemma process_projects_cons (u : Upstream) (sup : Finset String) (p : Project)
    (rest : List Project) (s : ExporterState) (cl : String → Finset Labels) (a : Aggregates) :
    process_projects u sup (p :: rest) s cl a =
      match fetch_measures u sup p.key with
      | .error _ => (rename_cleanup p s, cl, a, false)
      | .ok meas =>
        process_projects u sup rest
          { rename_cleanup p s with
            gauges := write_project p meas (rename_cleanup p s).gauges }
          (add_current_labels p cl) (accumulate_aggregates meas a) := rfl

/-- Splitting the loop at an append: when the first part succeeds, the loop
continues on the second part from where the first left off. -/
lemma process_projects_append_ok (u : Upstream) (sup : Finset String) :
    ∀ xs ys s cl a s' cl' a',
      process_projects u sup xs s cl a = (s', cl', a', true) →
      process_projects u sup (xs ++ ys) s cl a = process_projects u sup ys s' cl' a'
  | [], ys, s, cl, a, s', cl', a', h => by
    rw [process_projects_nil] at h
    simp only [Prod.mk.injEq] at h
    obtain ⟨h1, h2, h3, -⟩ := h
    rw [List.nil_append, h1, h2, h3]
  | p :: rest, ys, s, cl, a, s', cl', a', h => by
    rw [List.cons_append, process_projects_cons]
    rw [process_projects_cons] at h
    cases hf : fetch_measures u sup p.key with
    | error e =>
      rw [hf] at h
      exact absurd (congrArg (fun r => r.2.2.2) h) (by simp)
    | ok meas =>
      rw [hf] at h
      exact process_projects_append_ok u sup rest ys _ _ _ s' cl' a' h

/-- When the whole loop succeeds, every prefix of it succeeds. -/
lemma process_projects_prefix_ok (u : Upstream) (sup : Finset String) :
    ∀ xs ys s cl a,
      (process_projects u sup (xs ++ ys) s cl a).2.2.2 = true →
      (process_projects u sup xs s cl a).2.2.2 = true
  | [], _, _, _, _, _ => rfl
  | p :: rest, ys, s, cl, a, h => by
    rw [List.cons_append, process_projects_cons] at h
    rw [process_projects_cons]
    cases hf : fetch_measures u sup p.key with
    | error e =>
      rw [hf] at h
      simp at h
    | ok meas =>
      rw [hf] at h
      exact process_projects_prefix_ok u sup rest ys _ _ _ h

/-- The label tuples of a project list. -/
def label_tuples (ps : List Project) : Finset Labels :=
  (ps.map (fun p => (p.key, p.name))).toFinset

/-- On success, the loop's current-label accumulator for a configured
metric grows by exactly the label tuples of the processed projects, and is
untouched for any other metric name. -/
lemma process_projects_cl (u : Upstream) (sup : Finset String) :
    ∀ ps s cl a, (process_projects u sup ps s cl a).2.2.2 = true →
      ∀ m, (process_projects u sup ps s cl a).2.1 m
        = if m ∈ METRIC_KEYS then cl m ∪ label_tuples ps else cl m
  | [], s, cl, a, _, m => by
    simp [process_projects_nil, label_tuples]
  | p :: rest, s, cl, a, h, m => by
    rw [process_projects_cons] at h ⊢
    cases hf : fetch_measures u sup p.key with
    | error e =>
      rw [hf] at h
      simp at h
    | ok meas =>
      rw [hf] at h
      dsimp only at h ⊢
      rw [process_projects_cl u sup rest _ _ _ h m]
      by_cases hm : m ∈ METRIC_KEYS
      · simp only [if_pos hm, add_current_labels, label_tuples, List.map_cons,
          List.toFinset_cons]
        rw [Finset.insert_union, Finset.union_insert]
      · simp [if_neg hm, add_current_labels, hm]

end SonarETL

namespace SonarETL

/-- Under the catalog's key-uniqueness invariant, a project is determined by
its key. -/
lemma key_inj {ps : List Project} (hnd : (ps.map Project.key).Nodup)
    {p q : Project} (hp : p ∈ ps) (hq : q ∈ ps) (h : p.key = q.key) : p = q :=
  List.inj_on_of_nodup_map hnd hp hq h

/-- On success, with pairwise-distinct project keys, the loop leaves every
configured metric's gauge holding, for each processed project, exactly the
value fetched for that project (NaN for a missing measure). -/
lemma process_projects_written (u : Upstream) (sup : Finset String) :
    ∀ ps s cl a p meas_p, (ps.map Project.key).Nodup → p ∈ ps →
      fetch_measures u sup p.key = .ok meas_p →
      (process_projects u sup ps s cl a).2.2.2 = true →
      ∀ m, m ∈ METRIC_KEYS →
        (process_projects u sup ps s cl a).1.gauges m (p.key, p.name)
          = some (measure_gval (meas_p m))
  | [], _, _, _, _, _, _, hp, _, _, _, _ => absurd hp (List.not_mem_nil _)
  | q :: rest, s, cl, a, p, meas_p, hnd, hp, hf, hok, m, hm => by
    rw [List.map_cons, List.nodup_cons] at hnd
    obtain ⟨hqk, hnd'⟩ := hnd
    rw [process_projects_cons] at hok ⊢
    cases hfq : fetch_measures u sup q.key with
    | error e =>
      rw [hfq] at hok
      simp at hok
    | ok measq =>
      rw [hfq] at hok
      dsimp only at hok ⊢
      rcases List.mem_cons.mp hp with rfl | hp'
      · have hmeq : meas_p = measq := by
          have := hf.symm.trans hfq
          injection this
        rw [hmeq]
        obtain ⟨hfr, -⟩ := process_projects_frame u sup rest
          { rename_cleanup p s with
            gauges := write_project p measq (rename_cleanup p s).gauges }
          (add_current_labels p cl) (accumulate_aggregates measq a) hqk
        rw [hfr m p.name]
        show write_project p measq (rename_cleanup p s).gauges m (p.key, p.name) = _
        rw [write_project_self _ _ _ hm]
      · exact process_projects_written u sup rest _ _ _ p meas_p hnd' hp' hf hok m hm

/-- On success, with pairwise-distinct project keys, the loop records each
processed project's current name in the rename-tracking map. -/
lemma process_projects_ktn_written (u : Upstream) (sup : Finset String) :
    ∀ ps s cl a p, (ps.map Project.key).Nodup → p ∈ ps →
      (process_projects u sup ps s cl a).2.2.2 = true →
      (process_projects u sup ps s cl a).1.project_key_to_name p.key = some p.name
  | [], _, _, _, _, _, hp, _ => absurd hp (List.not_mem_nil _)
  | q :: rest, s, cl, a, p, hnd, hp, hok => by
    rw [List.map_cons, List.nodup_cons] at hnd
    obtain ⟨hqk, hnd'⟩ := hnd
    rw [process_projects_cons] at hok ⊢
    cases hfq : fetch_measures u sup q.key with
    | error e =>
      rw [hfq] at hok
      simp at hok
    | ok measq =>
      rw [hfq] at hok
      dsimp only at hok ⊢
      rcases List.mem_cons.mp hp with rfl | hp'
      · obtain ⟨-, hfr⟩ := process_projects_frame u sup rest
          { rename_cleanup p s with
            gauges := write_project p measq (rename_cleanup p s).gauges }
          (add_current_labels p cl) (accumulate_aggregates measq a) hqk
        rw [hfr]
        show Function.update s.project_key_to_name p.key (some p.name) p.key = some p.name
        rw [Function.update_same]
      · exact process_projects_ktn_written u sup rest _ _ _ p hnd' hp' hok

/-- A label tuple is in `label_tuples (q :: rest)` iff it is `q`'s tuple or
in the tail's tuples. -/
lemma label_tuples_cons (q : Project) (rest : List Project) (t : Labels) :
    t ∈ label_tuples (q :: rest) ↔ t = (q.key, q.name) ∨ t ∈ label_tuples rest := by
  simp [label_tuples]

/-- When the loop starts from a state that already tracks every processed
project under its current name (as is the case on a second cycle over an
unchanged catalog), the rename step never removes anything, so gauge
children outside the catalog's label tuples are untouched. -/
lemma process_projects_no_rename (u : Upstream) (sup : Finset String) :
    ∀ ps s cl a, (ps.map Project.key).Nodup →
      (∀ p ∈ ps, s.project_key_to_name p.key = some p.name) →
      ∀ m t, t ∉ label_tuples ps →
        (process_projects u sup ps s cl a).1.gauges m t = s.gauges m t
  | [], _, _, _, _, _, _, _, _ => rfl
  | q :: rest, s, cl, a, hnd, hkn, m, t, ht => by
    rw [List.map_cons, List.nodup_cons] at hnd
    obtain ⟨hqk, hnd'⟩ := hnd
    have htq : t ≠ (q.key, q.name) := fun hc => ht ((label_tuples_cons q rest t).mpr (Or.inl hc))
    have htr : t ∉ label_tuples rest := fun hc => ht ((label_tuples_cons q rest t).mpr (Or.inr hc))
    have hsame : (rename_cleanup q s).gauges = s.gauges :=
      rename_cleanup_gauges_same (hkn q (List.mem_cons_self q rest))
    rw [process_projects_cons]
    cases hfq : fetch_measures u sup q.key with
    | error e =>
      exact congrFun (congrFun hsame m) t
    | ok measq =>
      dsimp only
      have hkn' : ∀ p ∈ rest,
          ({ rename_cleanup q s with
              gauges := write_project q measq (rename_cleanup q s).gauges } :
            ExporterState).project_key_to_name p.key = some p.name := by
        intro p hp
        have hpq : p.key ≠ q.key := fun hc => hqk (hc ▸ List.mem_map_of_mem Project.key hp)
        show Function.update s.project_key_to_name q.key (some q.name) p.key = some p.name
        rw [Function.update_noteq hpq]
        exact hkn p (List.mem_cons_of_mem q hp)
      rw [process_projects_no_rename u sup rest _ _ _ hnd' hkn' m t htr]
      show write_project q measq (rename_cleanup q s).gauges m t = s.gauges m t
      rw [write_project_ne htq, hsame]

end SonarETL

namespace SonarETL

/-- A successful cache refresh returns a non-empty key set and writes
exactly the two cache fields. -/
lemma refresh_supported_shape (u : Upstream) (now : ℚ) (s : ExporterState)
    (ks : Finset String) (s' : ExporterState)
    (h : refresh_supported_keys u now s = .ok (ks, s')) :
    ks ≠ ∅ ∧ s' = { s with supported_metric_keys := some ks,
                           supported_metric_keys_fetched_at := some now } := by
  unfold refresh_supported_keys at h
  cases hc : collect_metric_keys u.metric_pages ∅ with
  | error e =>
    rw [hc] at h
    exact Except.noConfusion h
  | ok kss =>
    rw [hc] at h
    dsimp only at h
    simp only [Except.ok.injEq, Prod.mk.injEq] at h
    obtain ⟨h1, h2⟩ := h
    constructor
    · rw [← h1]
      by_cases he : kss = ∅
      · rw [if_pos he]
        decide
      · rw [if_neg he]
        exact he
    · rw [← h2, h1]

/-- A successful supported-key lookup either serves the cached set with the
state unchanged, or returns a freshly computed non-empty set and writes
exactly the two cache fields. -/
lemma get_supported_cases (u : Upstream) (now : ℚ) (s : ExporterState)
    (ks : Finset String) (s' : ExporterState)
    (h : get_supported_metric_keys u now s = .ok (ks, s')) :
    (s.supported_metric_keys = some ks ∧ s' = s)
    ∨ (ks ≠ ∅ ∧ s' = { s with supported_metric_keys := some ks,
                              supported_metric_keys_fetched_at := some now }) := by
  unfold get_supported_metric_keys at h
  rcases hsk : s.supported_metric_keys with _ | cached
  · rw [hsk] at h
    exact Or.inr (refresh_supported_shape u now s ks s' h)
  · rcases hst : s.supported_metric_keys_fetched_at with _ | t
    · rw [hsk, hst] at h
      exact Or.inr (refresh_supported_shape u now s ks s' h)
    · rw [hsk, hst] at h
      dsimp only at h
      by_cases hlt : now - t < 3600
      · rw [if_pos hlt] at h
        simp only [Except.ok.injEq, Prod.mk.injEq] at h
        exact Or.inl ⟨congrArg some h.1, h.2.symm⟩
      · rw [if_neg hlt] at h
        exact Or.inr (refresh_supported_shape u now s ks s' h)

/-- A successful supported-key lookup either serves the cache (state
unchanged) or refreshes the cache fields; nothing else of the state ever
changes. -/
lemma get_supported_state_cases (u : Upstream) (now : ℚ) (s : ExporterState)
    (sup : Finset String) (s0 : ExporterState)
    (h : get_supported_metric_keys u now s = .ok (sup, s0)) :
    s0 = s ∨ s0 = { s with supported_metric_keys := some sup,
                           supported_metric_keys_fetched_at := some now } := by
  rcases get_supported_cases u now s sup s0 h with ⟨-, h0⟩ | ⟨-, h0⟩
  · exact Or.inl h0
  · exact Or.inr h0

/-- The supported-key step never touches the gauges, the known label sets,
the rename-tracking map, or the aggregates. -/
lemma get_supported_fields (u : Upstream) (now : ℚ) (s : ExporterState)
    (sup : Finset String) (s0 : ExporterState)
    (h : get_supported_metric_keys u now s = .ok (sup, s0)) :
    s0.gauges = s.gauges ∧ s0.known_labelsets = s.known_labelsets
    ∧ s0.project_key_to_name = s.project_key_to_name ∧ s0.aggregates = s.aggregates := by
  rcases get_supported_state_cases u now s sup s0 h with h0 | h0 <;> rw [h0] <;>
    exact ⟨rfl, rfl, rfl, rfl⟩

/-- `refresh_once` when the project listing fails: the state is returned
untouched. -/
lemma refresh_once_list_error (mk : String → Bool) (u : Upstream) (now : ℚ)
    (s : ExporterState) (h : list_projects mk u.project_pages = .error ()) :
    refresh_once mk u now s = (s, false) := by
  unfold refresh_once
  rw [h]

/-- `refresh_once` when the supported-key step fails: the state is returned
untouched. -/
lemma refresh_once_sup_error (mk : String → Bool) (u : Upstream) (now : ℚ)
    (s : ExporterState) (ps : List Project)
    (hps : list_projects mk u.project_pages = .ok ps)
    (h : get_supported_metric_keys u now s = .error ()) :
    refresh_once mk u now s = (s, false) := by
  unfold refresh_once
  rw [hps, h]

/-- `refresh_once` when a measures fetch fails inside the loop: the cycle
fails and the returned state is the loop's partial state. -/
lemma refresh_once_proc_false (mk : String → Bool) (u : Upstream) (now : ℚ)
    (s : ExporterState) (ps : List Project) (sup : Finset String) (s0 s1 : ExporterState)
    (cl : String → Finset Labels) (agg : Aggregates)
    (hps : list_projects mk u.project_pages = .ok ps)
    (hsup : get_supported_metric_keys u now s = .ok (sup, s0))
    (hproc : process_projects u sup ps s0 (fun _ => ∅) init_aggregates = (s1, cl, agg, false)) :
    refresh_once mk u now s = (s1, false) := by
  unfold refresh_once
  rw [hps, hsup]
  dsimp only
  rw [hproc]

/-- `refresh_once` on a fully successful cycle: publish the aggregates,
reconcile the label sets, prune the rename-tracking map. -/
lemma refresh_once_ok_eq (mk : String → Bool) (u : Upstream) (now : ℚ)
    (s : ExporterState) (ps : List Project) (sup : Finset String) (s0 s1 : ExporterState)
    (cl : String → Finset Labels) (agg : Aggregates)
    (hps : list_projects mk u.project_pages = .ok ps)
    (hsup : get_supported_metric_keys u now s = .ok (sup, s0))
    (hproc : process_projects u sup ps s0 (fun _ => ∅) init_aggregates = (s1, cl, agg, true)) :
    refresh_once mk u now s =
      ({ reconcile_labelsets cl (publish_aggregates agg s1) with
          project_key_to_name :=
            prune_key_to_name (ps.map Project.key)
              (reconcile_labelsets cl (publish_aggregates agg s1)).project_key_to_name },
        true) := by
  unfold refresh_once
  rw [hps, hsup]
  dsimp only
  rw [hproc]

end SonarETL

namespace SonarETL

/-! ## Claim C1 -/

/-- The match-everything key filter (the default `PROJECT_KEY_REGEX` of `.*`). -/
def match_all : String → Bool := fun _ => true

/-- Concrete upstream for claim C1: two projects `a` and `b`; the measures
request for `b` fails with an HTTP error. -/
def upstream_c1 : Upstream where
  project_pages := [.ok [⟨some "a", some "A"⟩, ⟨some "b", some "B"⟩]]
  metric_pages := [.ok [⟨some "ncloc"⟩]]
  measures := fun pk _ =>
    if pk = "a" then .ok [⟨some "ncloc", some "100"⟩] else .error ()

/-- Claim C1 is false as stated: a cycle in which the per-project measures
fetch for the second project fails does abort (`false` flag), yet it has
already written the first project's series into the store — the store is
touched by the failing cycle. -/
theorem C1_claim_counterexample :
    (refresh_once match_all upstream_c1 0 init_state).2 = false
    ∧ (refresh_once match_all upstream_c1 0 init_state).1.gauges "ncloc" ("a", "A")
        = some (GVal.num 100)
    ∧ init_state.gauges "ncloc" ("a", "A") = none :=
  ⟨by decide, by decide, rfl⟩

/-- Claim C1 (amended): a cycle that fails never publishes aggregates and
never runs the label-set reconciliation (both are exactly as before the
cycle), and when the failure happens during project listing or supported-key
negotiation — before the per-project loop — the whole state is returned
untouched.  (A failure during a per-project measures fetch, by contrast,
leaves the series already written for earlier projects in the store, see the
counterexample.) -/
theorem refresh_failure_no_publish_no_reconcile (mk : String → Bool) (u : Upstream)
    (now : ℚ) (s : ExporterState) (h : (refresh_once mk u now s).2 = false) :
    (refresh_once mk u now s).1.aggregates = s.aggregates
    ∧ (refresh_once mk u now s).1.known_labelsets = s.known_labelsets
    ∧ (list_projects mk u.project_pages = .error () → (refresh_once mk u now s).1 = s)
    ∧ (get_supported_metric_keys u now s = .error () → (refresh_once mk u now s).1 = s) := by
  cases hl : list_projects mk u.project_pages with
  | error e =>
    cases e
    rw [refresh_once_list_error mk u now s hl]
    exact ⟨rfl, rfl, fun _ => rfl, fun _ => rfl⟩
  | ok ps =>
    cases hs : get_supported_metric_keys u now s with
    | error e =>
      cases e
      rw [refresh_once_sup_error mk u now s ps hl hs]
      exact ⟨rfl, rfl, fun _ => rfl, fun _ => rfl⟩
    | ok pair =>
      obtain ⟨sup, s0⟩ := pair
      rcases hproc : process_projects u sup ps s0 (fun _ => ∅) init_aggregates
        with ⟨s1, cl, agg, b⟩
      cases b
      · rw [refresh_once_proc_false mk u now s ps sup s0 s1 cl agg hl hs hproc]
        obtain ⟨-, hk, -, hagg⟩ := get_supported_fields u now s sup s0 hs
        have hf := process_projects_fields u sup ps s0 (fun _ => ∅) init_aggregates
        rw [hproc] at hf
        refine ⟨hf.2.1.trans hagg, hf.1.trans hk, ?_, ?_⟩
        · intro hc
          exact Except.noConfusion hc
        · intro hc
          exact Except.noConfusion hc
      · rw [refresh_once_ok_eq mk u now s ps sup s0 s1 cl agg hl hs hproc] at h
        simp at h

/-- Witness for the amended C1 theorem at the concrete failing upstream. -/
theorem refresh_failure_no_publish_no_reconcile_witness :
    (refresh_once match_all upstream_c1 0 init_state).1.aggregates = init_state.aggregates
    ∧ (refresh_once match_all upstream_c1 0 init_state).1.known_labelsets
        = init_state.known_labelsets
    ∧ (list_projects match_all upstream_c1.project_pages = .error () →
        (refresh_once match_all upstream_c1 0 init_state).1 = init_state)
    ∧ (get_supported_metric_keys upstream_c1 0 init_state = .error () →
        (refresh_once match_all upstream_c1 0 init_state).1 = init_state) :=
  refresh_failure_no_publish_no_reconcile match_all upstream_c1 0 init_state (by decide)

/-! ## Claim C2 -/

/-- The key set of a successful supported-key lookup. -/
def supported_result : Except Unit (Finset String × ExporterState) → Option (Finset String)
  | .ok (ks, _) => some ks
  | .error _ => none

/-- When the cache has expired and the remote catalog accumulates to the
empty set, the supported-key step returns (and caches) the full configured
key list — regardless of what was cached before. -/
lemma get_supported_stale_empty_catalog (u : Upstream) (now : ℚ) (s : ExporterState)
    (C : Finset String) (t : ℚ)
    (hC : s.supported_metric_keys = some C)
    (ht : s.supported_metric_keys_fetched_at = some t)
    (hexp : ¬ now - t < 3600)
    (hcat : collect_metric_keys u.metric_pages ∅ = .ok ∅) :
    get_supported_metric_keys u now s =
      .ok (METRIC_KEYS.toFinset,
        { s with supported_metric_keys := some METRIC_KEYS.toFinset,
                 supported_metric_keys_fetched_at := some now }) := by
  unfold get_supported_metric_keys
  rw [hC, ht]
  dsimp only
  rw [if_neg hexp]
  unfold refresh_supported_keys
  rw [hcat]
  dsimp only
  rw [if_pos rfl]

/-- Concrete upstream for claim C2: the metric catalog returns a single
empty page (zero entries); nothing else is consulted. -/
def upstream_c2 : Upstream where
  project_pages := []
  metric_pages := [.ok []]
  measures := fun _ _ => .error ()

/-- Concrete state for claim C2: a non-empty supported-key set `{"ncloc"}`
cached at time 0. -/
def cached_state_c2 : ExporterState :=
  { init_state with
    supported_metric_keys := some {"ncloc"}
    supported_metric_keys_fetched_at := some 0 }

/-- Claim C2 is false as stated: with the cache period elapsed, a non-empty
cached set `{"ncloc"}` in place, and a metric catalog yielding zero entries,
the step returns the full configured key list, not the previously cached
set. -/
theorem C2_claim_counterexample :
    cached_state_c2.supported_metric_keys = some ({"ncloc"} : Finset String)
    ∧ ({"ncloc"} : Finset String) ≠ ∅
    ∧ collect_metric_keys upstream_c2.metric_pages ∅ = .ok ∅
    ∧ supported_result (get_supported_metric_keys upstream_c2 3600 cached_state_c2)
        = some METRIC_KEYS.toFinset
    ∧ METRIC_KEYS.toFinset ≠ ({"ncloc"} : Finset String) := by
  refine ⟨rfl, by decide, rfl, ?_, by decide⟩
  rw [get_supported_stale_empty_catalog upstream_c2 3600 cached_state_c2 {"ncloc"} 0 rfl rfl
    (by norm_num) rfl]
  rfl

/-- Claim C2 (amended): for every call in which the cache period has
elapsed and the remote metric-catalog query yields zero entries, the step
returns — and caches — the full configured key list, discarding any
previously cached set. -/
theorem get_supported_empty_catalog_returns_configured (u : Upstream) (now : ℚ)
    (s : ExporterState) (C : Finset String) (t : ℚ)
    (hC : s.supported_metric_keys = some C)
    (_hCne : C ≠ ∅)
    (ht : s.supported_metric_keys_fetched_at = some t)
    (hexp : ¬ now - t < 3600)
    (hcat : collect_metric_keys u.metric_pages ∅ = .ok ∅) :
    get_supported_metric_keys u now s =
      .ok (METRIC_KEYS.toFinset,
        { s with supported_metric_keys := some METRIC_KEYS.toFinset,
                 supported_metric_keys_fetched_at := some now }) :=
  get_supported_stale_empty_catalog u now s C t hC ht hexp hcat

/-- Witness for the amended C2 theorem at the concrete stale-cache state. -/
theorem get_supported_empty_catalog_returns_configured_witness :
    get_supported_metric_keys upstream_c2 3600 cached_state_c2 =
      .ok (METRIC_KEYS.toFinset,
        { cached_state_c2 with
            supported_metric_keys := some METRIC_KEYS.toFinset,
            supported_metric_keys_fetched_at := some 3600 }) :=
  get_supported_empty_catalog_returns_configured upstream_c2 3600 cached_state_c2
    {"ncloc"} 0 rfl (by decide) rfl (by norm_num) rfl

end SonarETL

namespace SonarETL

/-! ## Claim C8 -/

/-- Claim C8: the supported-key set returned by the negotiation step is
never empty.  Whatever the remote catalog returns, a successful call
returns a non-empty set — serving a (non-empty) cache, a non-empty fresh
accumulation, or the full configured list as fallback — and the cache
invariant (empty or non-empty, never `some ∅`) is preserved for the next
call. -/
theorem get_supported_result_never_empty (u : Upstream) (now : ℚ) (s : ExporterState)
    (hinv : s.supported_metric_keys = none
      ∨ ∃ C, s.supported_metric_keys = some C ∧ C ≠ ∅)
    (ks : Finset String) (s' : ExporterState)
    (h : get_supported_metric_keys u now s = .ok (ks, s')) :
    ks ≠ ∅
    ∧ (s'.supported_metric_keys = none
       ∨ ∃ C, s'.supported_metric_keys = some C ∧ C ≠ ∅) := by
  rcases get_supported_cases u now s ks s' h with ⟨hks, hs'⟩ | ⟨hne, hs'⟩
  · rcases hinv with h0 | ⟨C, hC, hCne⟩
    · rw [h0] at hks
      exact Option.noConfusion hks
    · rw [hC] at hks
      injection hks with hck
      constructor
      · rw [← hck]
        exact hCne
      · rw [hs']
        exact Or.inr ⟨C, hC, hCne⟩
  · refine ⟨hne, Or.inr ⟨ks, ?_, hne⟩⟩
    rw [hs']

/-- Upstream for the C8 witness: the metric catalog yields zero entries. -/
def upstream_c8 : Upstream where
  project_pages := []
  metric_pages := [.ok []]
  measures := fun _ _ => .error ()

/-- Witness for C8: on a fresh exporter with an empty remote catalog, the
negotiation returns the (non-empty) configured list and the cache invariant
holds afterwards. -/
theorem get_supported_result_never_empty_witness :
    METRIC_KEYS.toFinset ≠ ∅
    ∧ (({ init_state with
            supported_metric_keys := some METRIC_KEYS.toFinset,
            supported_metric_keys_fetched_at := some 0 } : ExporterState).supported_metric_keys
          = none
       ∨ ∃ C, ({ init_state with
            supported_metric_keys := some METRIC_KEYS.toFinset,
            supported_metric_keys_fetched_at := some 0 } : ExporterState).supported_metric_keys
          = some C ∧ C ≠ ∅) :=
  get_supported_result_never_empty upstream_c8 0 init_state (Or.inl rfl)
    METRIC_KEYS.toFinset
    { init_state with
        supported_metric_keys := some METRIC_KEYS.toFinset,
        supported_metric_keys_fetched_at := some 0 }
    rfl

/-! ## Claims C9 and C10: `_fetch_measures` -/

/-- A loop iteration on an entry whose value fails numeric parsing leaves
the `out` dict untouched. -/
lemma build_measures_step_drop (out : String → Option ℚ) (e : MeasureEntry) (raw : String)
    (hraw : e.value = some raw) (hparse : pyFloat raw = none) :
    build_measures_step out e = out := by
  unfold build_measures_step
  rw [hraw]
  cases e.metric with
  | none => rfl
  | some key =>
    dsimp only
    by_cases hk : key ∈ METRIC_KEYS
    · rw [if_pos hk, hparse]
    · rw [if_neg hk]

/-- Every binding in the accumulated `out` dict comes from some entry whose
metric named it and whose raw value parsed to exactly that number — or was
already in the accumulator. -/
lemma build_measures_fold_provenance :
    ∀ (entries : List MeasureEntry) (out : String → Option ℚ) (k : String) (v : ℚ),
      (entries.foldl build_measures_step out) k = some v →
      (∃ e ∈ entries, e.metric = some k ∧ ∃ r, e.value = some r ∧ pyFloat r = some v)
      ∨ out k = some v
  | [], out, k, v, h => Or.inr h
  | e :: rest, out, k, v, h => by
    rcases build_measures_fold_provenance rest (build_measures_step out e) k v h
      with ⟨e2, he2, hm, hr⟩ | hstep
    · exact Or.inl ⟨e2, List.mem_cons_of_mem e he2, hm, hr⟩
    · unfold build_measures_step at hstep
      rcases hme : e.metric with _ | key
      · rw [hme] at hstep
        exact Or.inr hstep
      · rcases hve : e.value with _ | raw
        · rw [hme, hve] at hstep
          exact Or.inr hstep
        · rw [hme, hve] at hstep
          dsimp only at hstep
          by_cases hk : key ∈ METRIC_KEYS
          · rw [if_pos hk] at hstep
            cases hp : pyFloat raw with
            | none =>
              rw [hp] at hstep
              exact Or.inr hstep
            | some w =>
              rw [hp] at hstep
              dsimp only at hstep
              by_cases hkk : k = key
              · subst hkk
                rw [Function.update_same] at hstep
                injection hstep with hwv
                exact Or.inl ⟨e, List.mem_cons_self e rest, hme, raw, hve, hwv ▸ hp⟩
              · rw [Function.update_noteq hkk] at hstep
                exact Or.inr hstep
          · rw [if_neg hk] at hstep
            exact Or.inr hstep

/-- An accumulated `out` dict binds only configured metric keys, provided
the accumulator it started from did. -/
lemma build_measures_fold_configured :
    ∀ (entries : List MeasureEntry) (out : String → Option ℚ),
      (∀ k, out k ≠ none → k ∈ METRIC_KEYS) →
      ∀ k, (entries.foldl build_measures_step out) k ≠ none → k ∈ METRIC_KEYS
  | [], out, hout, k, h => hout k h
  | e :: rest, out, hout, k, h => by
    refine build_measures_fold_configured rest (build_measures_step out e) ?_ k h
    intro k' hk'
    unfold build_measures_step at hk'
    rcases hme : e.metric with _ | key
    · rw [hme] at hk'
      exact hout k' hk'
    · rcases hve : e.value with _ | raw
      · rw [hme, hve] at hk'
        exact hout k' hk'
      · rw [hme, hve] at hk'
        dsimp only at hk'
        by_cases hk : key ∈ METRIC_KEYS
        · rw [if_pos hk] at hk'
          cases hp : pyFloat raw with
          | none =>
            rw [hp] at hk'
            exact hout k' hk'
          | some w =>
            rw [hp] at hk'
            dsimp only at hk'
            by_cases hkk : k' = key
            · exact hkk ▸ hk
            · rw [Function.update_noteq hkk] at hk'
              exact hout k' hk'
        · rw [if_neg hk] at hk'
          exact hout k' hk'

/-- Claim C9: an entry of the measures response whose value fails numeric
conversion is dropped — the fetched mapping is the same as if the entry
were not in the response at all (first conjunct, so nothing is defaulted
and nothing fails), every binding of the result comes from an entry that
parsed successfully (second conjunct), and the fetched mapping really is
what the measure fetch returns when the request succeeds (third
conjunct). -/
theorem fetch_measures_drops_unparsable
    (entries1 entries2 : List MeasureEntry) (e : MeasureEntry) (raw : String)
    (hraw : e.value = some raw) (hparse : pyFloat raw = none) :
    build_measures (entries1 ++ e :: entries2) = build_measures (entries1 ++ entries2)
    ∧ (∀ (entries : List MeasureEntry) (k : String) (v : ℚ),
        build_measures entries k = some v →
        ∃ e2 ∈ entries, e2.metric = some k ∧ ∃ r, e2.value = some r ∧ pyFloat r = some v)
    ∧ (∀ (u : Upstream) (sup : Finset String) (pk : String) (entries : List MeasureEntry),
        (METRIC_KEYS.filter (fun k => k ∈ sup)).isEmpty = false →
        u.measures pk (METRIC_KEYS.filter (fun k => k ∈ sup)) = .ok entries →
        fetch_measures u sup pk = .ok (build_measures entries)) := by
  refine ⟨?_, ?_, ?_⟩
  · unfold build_measures
    rw [List.foldl_append, List.foldl_append, List.foldl_cons,
      build_measures_step_drop _ e raw hraw hparse]
  · intro entries k v h
    rcases build_measures_fold_provenance entries (fun _ => none) k v h with hp | hp
    · exact hp
    · exact Option.noConfusion hp
  · intro u sup pk entries hne hresp
    unfold fetch_measures
    dsimp only
    rw [if_neg (by rw [hne]; exact Bool.false_ne_true), hresp]

/-- Concrete entries for the C9 witness: the middle entry's value `"abc"`
fails numeric parsing and is dropped. -/
def entries_c9_good : List MeasureEntry :=
  [⟨some "ncloc", some "100"⟩]

/-- Witness for C9 at concrete inputs. -/
theorem fetch_measures_drops_unparsable_witness :
    build_measures (entries_c9_good ++ ⟨some "bugs", some "abc"⟩ :: [])
      = build_measures (entries_c9_good ++ [])
    ∧ (∀ (entries : List MeasureEntry) (k : String) (v : ℚ),
        build_measures entries k = some v →
        ∃ e2 ∈ entries, e2.metric = some k ∧ ∃ r, e2.value = some r ∧ pyFloat r = some v)
    ∧ (∀ (u : Upstream) (sup : Finset String) (pk : String) (entries : List MeasureEntry),
        (METRIC_KEYS.filter (fun k => k ∈ sup)).isEmpty = false →
        u.measures pk (METRIC_KEYS.filter (fun k => k ∈ sup)) = .ok entries →
        fetch_measures u sup pk = .ok (build_measures entries)) :=
  fetch_measures_drops_unparsable entries_c9_good [] ⟨some "bugs", some "abc"⟩ "abc"
    rfl (by decide)

/-! ## Claim C10 -/

/-- Claim C10: the mapping returned by a successful measure fetch binds
only keys of the fixed configured metric-key list; any other metric in the
response is excluded even when its value parses. -/
theorem fetch_measures_only_configured_keys (u : Upstream) (sup : Finset String)
    (pk : String) (meas : String → Option ℚ)
    (h : fetch_measures u sup pk = .ok meas) :
    ∀ k, meas k ≠ none → k ∈ METRIC_KEYS := by
  unfold fetch_measures at h
  dsimp only at h
  split at h
  · simp only [Except.ok.injEq] at h
    intro k hk
    rw [← h] at hk
    exact absurd rfl hk
  · cases hm : u.measures pk (METRIC_KEYS.filter (fun k => k ∈ sup)) with
    | error e =>
      rw [hm] at h
      exact Except.noConfusion h
    | ok entries =>
      rw [hm] at h
      simp only [Except.ok.injEq] at h
      intro k hk
      rw [← h] at hk
      exact build_measures_fold_configured entries (fun _ => none) (fun _ hc => absurd rfl hc) k hk

/-- Upstream for the C10 witness: the response names a metric outside the
configured list with a perfectly parsable value. -/
def upstream_c10 : Upstream where
  project_pages := []
  metric_pages := []
  measures := fun _ _ => .ok [⟨some "ncloc", some "1"⟩, ⟨some "bogus_metric", some "7"⟩]

/-- Witness for C10: the fetched mapping binds only configured keys, and
the unconfigured `bogus_metric` is absent even though `"7"` parses. -/
theorem fetch_measures_only_configured_keys_witness :
    (∀ k, build_measures [⟨some "ncloc", some "1"⟩, ⟨some "bogus_metric", some "7"⟩] k ≠ none
      → k ∈ METRIC_KEYS)
    ∧ pyFloat "7" = some 7
    ∧ build_measures [⟨some "ncloc", some "1"⟩, ⟨some "bogus_metric", some "7"⟩] "bogus_metric"
        = none :=
  ⟨fetch_measures_only_configured_keys upstream_c10 METRIC_KEYS.toFinset "a" _ rfl,
    by decide, by decide⟩

end SonarETL

namespace SonarETL

/-! ## Claim C5 -/

/-- Generic unrolling of the aggregate fold: any component of the
accumulator that each step increments by `g meas` ends up as its initial
value plus the sum of `g` over the processed projects. -/
lemma foldl_agg_field (f : Aggregates → ℚ) (g : (String → Option ℚ) → ℚ)
    (hstep : ∀ meas a, f (accumulate_aggregates meas a) = f a + g meas)
    (meas : Project → String → Option ℚ) :
    ∀ (ps : List Project) (a : Aggregates),
      f (ps.foldl (fun acc p => accumulate_aggregates (meas p) acc) a)
        = f a + (ps.map (fun p => g (meas p))).sum
  | [], a => by simp
  | p :: rest, a => by
    rw [List.foldl_cons, foldl_agg_field f g hstep meas rest _, hstep, List.map_cons,
      List.sum_cons, add_assoc]

/-- A sum of 0/1 indicators counts the elements satisfying the predicate. -/
lemma sum_indicator_count (pred : Project → Prop) [DecidablePred pred] :
    ∀ ps : List Project,
      ((ps.map (fun p => if pred p then (1 : ℚ) else 0)).sum)
        = ((ps.countP (fun p => decide (pred p)) : ℕ) : ℚ)
  | [] => by simp
  | p :: rest => by
    rw [List.map_cons, List.sum_cons, sum_indicator_count pred rest, List.countP_cons]
    by_cases hp : pred p
    · rw [if_pos hp, if_pos (by simpa using hp)]
      push_cast
      ring
    · rw [if_neg hp, if_neg (by simpa using hp)]
      push_cast
      ring

/-- A sum of constant ones counts the elements. -/
lemma sum_ones_length :
    ∀ ps : List Project, ((ps.map (fun _ => (1 : ℚ))).sum) = (ps.length : ℚ)
  | [] => by simp
  | p :: rest => by
    rw [List.map_cons, List.sum_cons, sum_ones_length rest, List.length_cons]
    push_cast
    ring

/-- Claim C5: on a successful cycle, every published fleet total equals the
sum over the cycle's projects of the corresponding fetched value with an
absent value counted as 0, the projects total equals the catalog size, and
each `> 0` counter equals the number of projects whose (defaulted) fetched
value is strictly positive. -/
theorem refresh_once_aggregates_correct (mk : String → Bool) (u : Upstream) (now : ℚ)
    (s : ExporterState) (ps : List Project) (sup : Finset String) (s0 : ExporterState)
    (meas : Project → String → Option ℚ)
    (hps : list_projects mk u.project_pages = .ok ps)
    (hsup : get_supported_metric_keys u now s = .ok (sup, s0))
    (hfetch : ∀ p ∈ ps, fetch_measures u sup p.key = .ok (meas p)) :
    (refresh_once mk u now s).2 = true
    ∧ (refresh_once mk u now s).1.aggregates.ncloc_total
        = (ps.map (fun p => ((meas p) "ncloc").getD 0)).sum
    ∧ (refresh_once mk u now s).1.aggregates.lines_total
        = (ps.map (fun p => ((meas p) "lines").getD 0)).sum
    ∧ (refresh_once mk u now s).1.aggregates.statements_total
        = (ps.map (fun p => ((meas p) "statements").getD 0)).sum
    ∧ (refresh_once mk u now s).1.aggregates.functions_total
        = (ps.map (fun p => ((meas p) "functions").getD 0)).sum
    ∧ (refresh_once mk u now s).1.aggregates.classes_total
        = (ps.map (fun p => ((meas p) "classes").getD 0)).sum
    ∧ (refresh_once mk u now s).1.aggregates.files_total
        = (ps.map (fun p => ((meas p) "files").getD 0)).sum
    ∧ (refresh_once mk u now s).1.aggregates.comment_lines_total
        = (ps.map (fun p => ((meas p) "comment_lines").getD 0)).sum
    ∧ (refresh_once mk u now s).1.aggregates.bugs_total
        = (ps.map (fun p => ((meas p) "bugs").getD 0)).sum
    ∧ (refresh_once mk u now s).1.aggregates.vulnerabilities_total
        = (ps.map (fun p => ((meas p) "vulnerabilities").getD 0)).sum
    ∧ (refresh_once mk u now s).1.aggregates.code_smells_total
        = (ps.map (fun p => ((meas p) "code_smells").getD 0)).sum
    ∧ (refresh_once mk u now s).1.aggregates.projects_total = (ps.length : ℚ)
    ∧ (refresh_once mk u now s).1.aggregates.projects_with_bugs_gt0
        = ((ps.countP (fun p => decide (0 < ((meas p) "bugs").getD 0)) : ℕ) : ℚ)
    ∧ (refresh_once mk u now s).1.aggregates.projects_with_vulns_gt0
        = ((ps.countP (fun p => decide (0 < ((meas p) "vulnerabilities").getD 0)) : ℕ) : ℚ) := by
  have hok := process_projects_ok u sup meas ps s0 (fun _ => ∅) init_aggregates hfetch
  have haggfold := process_projects_agg u sup meas ps s0 (fun _ => ∅) init_aggregates hfetch
  rcases hproc : process_projects u sup ps s0 (fun _ => ∅) init_aggregates with ⟨s1, cl, agg, b⟩
  rw [hproc] at hok haggfold
  dsimp only at hok haggfold
  subst hok
  rw [refresh_once_ok_eq mk u now s ps sup s0 s1 cl agg hps hsup hproc]
  subst haggfold
  refine ⟨rfl, ?_, ?_, ?_, ?_, ?_, ?_, ?_, ?_, ?_, ?_, ?_, ?_, ?_⟩
  · show (List.foldl (fun acc p => accumulate_aggregates (meas p) acc)
      init_aggregates ps).ncloc_total = _
    rw [foldl_agg_field (fun a => a.ncloc_total) (fun m => (m "ncloc").getD 0)
      (fun _ _ => rfl) meas ps init_aggregates]
    show 0 + _ = _
    rw [zero_add]
  · show (List.foldl (fun acc p => accumulate_aggregates (meas p) acc)
      init_aggregates ps).lines_total = _
    rw [foldl_agg_field (fun a => a.lines_total) (fun m => (m "lines").getD 0)
      (fun _ _ => rfl) meas ps init_aggregates]
    show 0 + _ = _
    rw [zero_add]
  · show (List.foldl (fun acc p => accumulate_aggregates (meas p) acc)
      init_aggregates ps).statements_total = _
    rw [foldl_agg_field (fun a => a.statements_total) (fun m => (m "statements").getD 0)
      (fun _ _ => rfl) meas ps init_aggregates]
    show 0 + _ = _
    rw [zero_add]
  · show (List.foldl (fun acc p => accumulate_aggregates (meas p) acc)
      init_aggregates ps).functions_total = _
    rw [foldl_agg_field (fun a => a.functions_total) (fun m => (m "functions").getD 0)
      (fun _ _ => rfl) meas ps init_aggregates]
    show 0 + _ = _
    rw [zero_add]
  · show (List.foldl (fun acc p => accumulate_aggregates (meas p) acc)
      init_aggregates ps).classes_total = _
    rw [foldl_agg_field (fun a => a.classes_total) (fun m => (m "classes").getD 0)
      (fun _ _ => rfl) meas ps init_aggregates]
    show 0 + _ = _
    rw [zero_add]
  · show (List.foldl (fun acc p => accumulate_aggregates (meas p) acc)
      init_aggregates ps).files_total = _
    rw [foldl_agg_field (fun a => a.files_total) (fun m => (m "files").getD 0)
      (fun _ _ => rfl) meas ps init_aggregates]
    show 0 + _ = _
    rw [zero_add]
  · show (List.foldl (fun acc p => accumulate_aggregates (meas p) acc)
      init_aggregates ps).comment_lines_total = _
    rw [foldl_agg_field (fun a => a.comment_lines_total) (fun m => (m "comment_lines").getD 0)
      (fun _ _ => rfl) meas ps init_aggregates]
    show 0 + _ = _
    rw [zero_add]
  · show (List.foldl (fun acc p => accumulate_aggregates (meas p) acc)
      init_aggregates ps).bugs_total = _
    rw [foldl_agg_field (fun a => a.bugs_total) (fun m => (m "bugs").getD 0)
      (fun _ _ => rfl) meas ps init_aggregates]
    show 0 + _ = _
    rw [zero_add]
  · show (List.foldl (fun acc p => accumulate_aggregates (meas p) acc)
      init_aggregates ps).vulnerabilities_total = _
    rw [foldl_agg_field (fun a => a.vulnerabilities_total)
      (fun m => (m "vulnerabilities").getD 0) (fun _ _ => rfl) meas ps init_aggregates]
    show 0 + _ = _
    rw [zero_add]
  · show (List.foldl (fun acc p => accumulate_aggregates (meas p) acc)
      init_aggregates ps).code_smells_total = _
    rw [foldl_agg_field (fun a => a.code_smells_total) (fun m => (m "code_smells").getD 0)
      (fun _ _ => rfl) meas ps init_aggregates]
    show 0 + _ = _
    rw [zero_add]
  · show (List.foldl (fun acc p => accumulate_aggregates (meas p) acc)
      init_aggregates ps).projects_total = _
    rw [foldl_agg_field (fun a => a.projects_total) (fun _ => 1)
      (fun _ _ => rfl) meas ps init_aggregates]
    show 0 + _ = _
    rw [zero_add, sum_ones_length]
  · show (List.foldl (fun acc p => accumulate_aggregates (meas p) acc)
      init_aggregates ps).projects_with_bugs_gt0 = _
    rw [foldl_agg_field (fun a => a.projects_with_bugs_gt0)
      (fun m => if 0 < (m "bugs").getD 0 then 1 else 0) (fun _ _ => rfl) meas ps
      init_aggregates]
    show 0 + _ = _
    rw [zero_add, sum_indicator_count (fun p => 0 < ((meas p) "bugs").getD 0)]
  · show (List.foldl (fun acc p => accumulate_aggregates (meas p) acc)
      init_aggregates ps).projects_with_vulns_gt0 = _
    rw [foldl_agg_field (fun a => a.projects_with_vulns_gt0)
      (fun m => if 0 < (m "vulnerabilities").getD 0 then 1 else 0) (fun _ _ => rfl) meas ps
      init_aggregates]
    show 0 + _ = _
    rw [zero_add, sum_indicator_count (fun p => 0 < ((meas p) "vulnerabilities").getD 0)]

end SonarETL

namespace SonarETL

/-- Upstream for the C5 witness (the spec's Scenario A): `a/Alpha` with
ncloc 100 and bugs 2, `b/Beta` with ncloc 50 and bugs 0. -/
def upstream_c5 : Upstream where
  project_pages := [.ok [⟨some "a", some "Alpha"⟩, ⟨some "b", some "Beta"⟩]]
  metric_pages := []
  measures := fun pk _ =>
    .ok (if pk = "a" then [⟨some "ncloc", some "100"⟩, ⟨some "bugs", some "2"⟩]
         else [⟨some "ncloc", some "50"⟩, ⟨some "bugs", some "0"⟩])

/-- The measures mapping each project of `upstream_c5` fetches. -/
def meas_c5 : Project → String → Option ℚ := fun p =>
  build_measures
    (if p.key = "a" then [⟨some "ncloc", some "100"⟩, ⟨some "bugs", some "2"⟩]
     else [⟨some "ncloc", some "50"⟩, ⟨some "bugs", some "0"⟩])

/-- Witness for C5 at Scenario A's concrete upstream. -/
theorem refresh_once_aggregates_correct_witness :
    (refresh_once match_all upstream_c5 0 init_state).2 = true
    ∧ (refresh_once match_all upstream_c5 0 init_state).1.aggregates.ncloc_total
        = (([⟨"a", "Alpha"⟩, ⟨"b", "Beta"⟩] : List Project).map
            (fun p => ((meas_c5 p) "ncloc").getD 0)).sum
    ∧ (refresh_once match_all upstream_c5 0 init_state).1.aggregates.lines_total
        = (([⟨"a", "Alpha"⟩, ⟨"b", "Beta"⟩] : List Project).map
            (fun p => ((meas_c5 p) "lines").getD 0)).sum
    ∧ (refresh_once match_all upstream_c5 0 init_state).1.aggregates.statements_total
        = (([⟨"a", "Alpha"⟩, ⟨"b", "Beta"⟩] : List Project).map
            (fun p => ((meas_c5 p) "statements").getD 0)).sum
    ∧ (refresh_once match_all upstream_c5 0 init_state).1.aggregates.functions_total
        = (([⟨"a", "Alpha"⟩, ⟨"b", "Beta"⟩] : List Project).map
            (fun p => ((meas_c5 p) "functions").getD 0)).sum
    ∧ (refresh_once match_all upstream_c5 0 init_state).1.aggregates.classes_total
        = (([⟨"a", "Alpha"⟩, ⟨"b", "Beta"⟩] : List Project).map
            (fun p => ((meas_c5 p) "classes").getD 0)).sum
    ∧ (refresh_once match_all upstream_c5 0 init_state).1.aggregates.files_total
        = (([⟨"a", "Alpha"⟩, ⟨"b", "Beta"⟩] : List Project).map
            (fun p => ((meas_c5 p) "files").getD 0)).sum
    ∧ (refresh_once match_all upstream_c5 0 init_state).1.aggregates.comment_lines_total
        = (([⟨"a", "Alpha"⟩, ⟨"b", "Beta"⟩] : List Project).map
            (fun p => ((meas_c5 p) "comment_lines").getD 0)).sum
    ∧ (refresh_once match_all upstream_c5 0 init_state).1.aggregates.bugs_total
        = (([⟨"a", "Alpha"⟩, ⟨"b", "Beta"⟩] : List Project).map
            (fun p => ((meas_c5 p) "bugs").getD 0)).sum
    ∧ (refresh_once match_all upstream_c5 0 init_state).1.aggregates.vulnerabilities_total
        = (([⟨"a", "Alpha"⟩, ⟨"b", "Beta"⟩] : List Project).map
            (fun p => ((meas_c5 p) "vulnerabilities").getD 0)).sum
    ∧ (refresh_once match_all upstream_c5 0 init_state).1.aggregates.code_smells_total
        = (([⟨"a", "Alpha"⟩, ⟨"b", "Beta"⟩] : List Project).map
            (fun p => ((meas_c5 p) "code_smells").getD 0)).sum
    ∧ (refresh_once match_all upstream_c5 0 init_state).1.aggregates.projects_total
        = ((([⟨"a", "Alpha"⟩, ⟨"b", "Beta"⟩] : List Project).length : ℕ) : ℚ)
    ∧ (refresh_once match_all upstream_c5 0 init_state).1.aggregates.projects_with_bugs_gt0
        = ((([⟨"a", "Alpha"⟩, ⟨"b", "Beta"⟩] : List Project).countP
            (fun p => decide (0 < ((meas_c5 p) "bugs").getD 0)) : ℕ) : ℚ)
    ∧ (refresh_once match_all upstream_c5 0 init_state).1.aggregates.projects_with_vulns_gt0
        = ((([⟨"a", "Alpha"⟩, ⟨"b", "Beta"⟩] : List Project).countP
            (fun p => decide (0 < ((meas_c5 p) "vulnerabilities").getD 0)) : ℕ) : ℚ) :=
  refresh_once_aggregates_correct match_all upstream_c5 0 init_state
    [⟨"a", "Alpha"⟩, ⟨"b", "Beta"⟩] METRIC_KEYS.toFinset
    { init_state with
        supported_metric_keys := some METRIC_KEYS.toFinset,
        supported_metric_keys_fetched_at := some 0 }
    meas_c5 rfl rfl (fun _ _ => rfl)

/-! ## Claim C6 -/

/-- Claim C6: after a successful cycle over a catalog with pairwise-distinct
keys, every configured metric holds, for every project of the catalog, a
series labelled with the project's current key and name whose value is the
fetched one — and when the fetch produced no value for that key (including
a measures response with no measures at all), that series holds the NaN
sentinel, never a defaulted zero. -/
theorem refresh_once_series_complete (mk : String → Bool) (u : Upstream) (now : ℚ)
    (s : ExporterState) (ps : List Project) (sup : Finset String) (s0 : ExporterState)
    (meas : Project → String → Option ℚ)
    (hps : list_projects mk u.project_pages = .ok ps)
    (hnodup : (ps.map Project.key).Nodup)
    (hsup : get_supported_metric_keys u now s = .ok (sup, s0))
    (hfetch : ∀ p ∈ ps, fetch_measures u sup p.key = .ok (meas p)) :
    (refresh_once mk u now s).2 = true
    ∧ ∀ p ∈ ps, ∀ m ∈ METRIC_KEYS,
        (refresh_once mk u now s).1.gauges m (p.key, p.name)
          = some (measure_gval ((meas p) m))
        ∧ ((meas p) m = none →
            (refresh_once mk u now s).1.gauges m (p.key, p.name) = some GVal.nan) := by
  have hok := process_projects_ok u sup meas ps s0 (fun _ => ∅) init_aggregates hfetch
  rcases hproc : process_projects u sup ps s0 (fun _ => ∅) init_aggregates with ⟨s1, cl, agg, b⟩
  rw [hproc] at hok
  dsimp only at hok
  subst hok
  rw [refresh_once_ok_eq mk u now s ps sup s0 s1 cl agg hps hsup hproc]
  refine ⟨rfl, ?_⟩
  intro p hp m hm
  have hcl := process_projects_cl u sup ps s0 (fun _ => ∅) init_aggregates (by rw [hproc]) m
  rw [hproc] at hcl
  dsimp only at hcl
  have htin : (p.key, p.name) ∈ cl m := by
    rw [hcl, if_pos hm]
    refine Finset.mem_union_right _ ?_
    simp only [label_tuples, List.mem_toFinset, List.mem_map]
    exact ⟨p, hp, rfl⟩
  have hval := process_projects_written u sup ps s0 (fun _ => ∅) init_aggregates p (meas p)
    hnodup hp (hfetch p hp) (by rw [hproc]) m hm
  rw [hproc] at hval
  dsimp only at hval
  have hfinal :
      (if m ∈ METRIC_KEYS ∧ (p.key, p.name) ∈ s1.known_labelsets m \ cl m then none
       else s1.gauges m (p.key, p.name)) = some (measure_gval ((meas p) m)) := by
    rw [if_neg, hval]
    rintro ⟨-, hmem⟩
    exact (Finset.mem_sdiff.mp hmem).2 htin
  refine ⟨hfinal, fun hnone => ?_⟩
  rw [hnone] at hfinal
  exact hfinal

/-- Upstream for the C6 witness (the spec's Scenario C): project `c`'s
measures call returns no measures at all. -/
def upstream_c6 : Upstream where
  project_pages := [.ok [⟨some "c", some "C"⟩]]
  metric_pages := []
  measures := fun _ _ => .ok []

/-- Witness for C6 at a concrete upstream whose measures response is empty:
every configured metric gets a NaN series for `c`. -/
theorem refresh_once_series_complete_witness :
    (refresh_once match_all upstream_c6 0 init_state).2 = true
    ∧ ∀ p ∈ ([⟨"c", "C"⟩] : List Project), ∀ m ∈ METRIC_KEYS,
        (refresh_once match_all upstream_c6 0 init_state).1.gauges m (p.key, p.name)
          = some (measure_gval (build_measures [] m))
        ∧ (build_measures [] m = none →
            (refresh_once match_all upstream_c6 0 init_state).1.gauges m (p.key, p.name)
              = some GVal.nan) :=
  refresh_once_series_complete match_all upstream_c6 0 init_state [⟨"c", "C"⟩]
    METRIC_KEYS.toFinset
    { init_state with
        supported_metric_keys := some METRIC_KEYS.toFinset,
        supported_metric_keys_fetched_at := some 0 }
    (fun _ => build_measures []) rfl (by decide) rfl (fun _ _ => rfl)

end SonarETL

namespace SonarETL

/-- The cache-hit branch of the supported-key step. -/
lemma get_supported_cache_hit (u : Upstream) (now : ℚ) (s : ExporterState)
    (C : Finset String) (t : ℚ)
    (hC : s.supported_metric_keys = some C)
    (ht : s.supported_metric_keys_fetched_at = some t)
    (hlt : now - t < 3600) :
    get_supported_metric_keys u now s = .ok (C, s) := by
  unfold get_supported_metric_keys
  rw [hC, ht]
  dsimp only
  rw [if_pos hlt]

/-! ## Claim C3 -/

/-- Claim C3: across two consecutive successful cycles, a project present
in the first cycle's catalog whose label tuple is absent from the second
cycle's catalog has no series left in any configured metric's store after
the second cycle; and the end-of-cycle reconciliation removes, per metric,
exactly the set difference between the recorded label set and the current
one (every tuple in the difference becomes absent, every other tuple is
untouched). -/
theorem removed_project_series_absent
    (mk : String → Bool) (u1 u2 : Upstream) (n1 n2 : ℚ) (s : ExporterState)
    (ps1 ps2 : List Project) (sup1 sup2 : Finset String) (s01 s02 : ExporterState)
    (meas1 meas2 : Project → String → Option ℚ) (p : Project)
    (hps1 : list_projects mk u1.project_pages = .ok ps1)
    (hsup1 : get_supported_metric_keys u1 n1 s = .ok (sup1, s01))
    (hfetch1 : ∀ q ∈ ps1, fetch_measures u1 sup1 q.key = .ok (meas1 q))
    (hps2 : list_projects mk u2.project_pages = .ok ps2)
    (hsup2 : get_supported_metric_keys u2 n2 (refresh_once mk u1 n1 s).1 = .ok (sup2, s02))
    (hfetch2 : ∀ q ∈ ps2, fetch_measures u2 sup2 q.key = .ok (meas2 q))
    (hp : p ∈ ps1)
    (habs : (p.key, p.name) ∉ label_tuples ps2) :
    (refresh_once mk u1 n1 s).2 = true
    ∧ (refresh_once mk u2 n2 (refresh_once mk u1 n1 s).1).2 = true
    ∧ (∀ m ∈ METRIC_KEYS,
        (refresh_once mk u2 n2 (refresh_once mk u1 n1 s).1).1.gauges m (p.key, p.name)
          = none)
    ∧ (∀ (cl : String → Finset Labels) (st : ExporterState) (m : String), m ∈ METRIC_KEYS →
        ∀ t, (reconcile_labelsets cl st).gauges m t
          = if t ∈ st.known_labelsets m \ cl m then none else st.gauges m t) := by
  have hok1 := process_projects_ok u1 sup1 meas1 ps1 s01 (fun _ => ∅) init_aggregates hfetch1
  rcases hproc1 : process_projects u1 sup1 ps1 s01 (fun _ => ∅) init_aggregates
    with ⟨sA, clA, aggA, b1⟩
  rw [hproc1] at hok1
  dsimp only at hok1
  subst hok1
  have heq1 := refresh_once_ok_eq mk u1 n1 s ps1 sup1 s01 sA clA aggA hps1 hsup1 hproc1
  have hok2 := process_projects_ok u2 sup2 meas2 ps2 s02 (fun _ => ∅) init_aggregates hfetch2
  rcases hproc2 : process_projects u2 sup2 ps2 s02 (fun _ => ∅) init_aggregates
    with ⟨sB, clB, aggB, b2⟩
  rw [hproc2] at hok2
  dsimp only at hok2
  subst hok2
  have heq2 := refresh_once_ok_eq mk u2 n2 (refresh_once mk u1 n1 s).1 ps2 sup2 s02 sB clB
    aggB hps2 hsup2 hproc2
  refine ⟨by rw [heq1], by rw [heq2], ?_, ?_⟩
  · intro m hm
    have hclA := process_projects_cl u1 sup1 ps1 s01 (fun _ => ∅) init_aggregates
      (by rw [hproc1]) m
    rw [hproc1] at hclA
    dsimp only at hclA
    have htin : (p.key, p.name) ∈ clA m := by
      rw [hclA, if_pos hm]
      refine Finset.mem_union_right _ ?_
      simp only [label_tuples, List.mem_toFinset, List.mem_map]
      exact ⟨p, hp, rfl⟩
    have hclB := process_projects_cl u2 sup2 ps2 s02 (fun _ => ∅) init_aggregates
      (by rw [hproc2]) m
    rw [hproc2] at hclB
    dsimp only at hclB
    have htout : (p.key, p.name) ∉ clB m := by
      rw [hclB, if_pos hm]
      intro hc
      rcases Finset.mem_union.mp hc with hc | hc
      · exact absurd hc (Finset.not_mem_empty _)
      · exact habs hc
    have hknB : sB.known_labelsets = s02.known_labelsets := by
      have hf := process_projects_fields u2 sup2 ps2 s02 (fun _ => ∅) init_aggregates
      rw [hproc2] at hf
      exact hf.1
    have hknB0 : s02.known_labelsets = (refresh_once mk u1 n1 s).1.known_labelsets :=
      (get_supported_fields u2 n2 (refresh_once mk u1 n1 s).1 sup2 s02 hsup2).2.1
    have hknS1 : (refresh_once mk u1 n1 s).1.known_labelsets m = clA m := by
      rw [heq1]
      show (if m ∈ METRIC_KEYS then clA m else sA.known_labelsets m) = clA m
      rw [if_pos hm]
    have hin : (p.key, p.name) ∈ sB.known_labelsets m := by
      rw [hknB, hknB0, hknS1]
      exact htin
    rw [heq2]
    show (if m ∈ METRIC_KEYS ∧ (p.key, p.name) ∈ sB.known_labelsets m \ clB m then none
          else sB.gauges m (p.key, p.name)) = none
    rw [if_pos ⟨hm, Finset.mem_sdiff.mpr ⟨hin, htout⟩⟩]
  · intro cl st m hm t
    show (if m ∈ METRIC_KEYS ∧ t ∈ st.known_labelsets m \ cl m then none
          else st.gauges m t) = _
    by_cases hc : t ∈ st.known_labelsets m \ cl m
    · rw [if_pos ⟨hm, hc⟩, if_pos hc]
    · rw [if_neg (fun hcc => hc hcc.2), if_neg hc]

/-- Upstream for the C3 witness, cycle n: projects `a` and `b`. -/
def upstream_c3a : Upstream where
  project_pages := [.ok [⟨some "a", some "A"⟩, ⟨some "b", some "B"⟩]]
  metric_pages := []
  measures := fun _ _ => .ok []

/-- Upstream for the C3 witness, cycle n+1: project `b` has disappeared. -/
def upstream_c3b : Upstream where
  project_pages := [.ok [⟨some "a", some "A"⟩]]
  metric_pages := []
  measures := fun _ _ => .ok []

/-- Witness for C3: after the second cycle, none of `b`'s series remain. -/
theorem removed_project_series_absent_witness :
    (refresh_once match_all upstream_c3a 0 init_state).2 = true
    ∧ (refresh_once match_all upstream_c3b 0
        (refresh_once match_all upstream_c3a 0 init_state).1).2 = true
    ∧ (∀ m ∈ METRIC_KEYS,
        (refresh_once match_all upstream_c3b 0
          (refresh_once match_all upstream_c3a 0 init_state).1).1.gauges m ("b", "B")
          = none)
    ∧ (∀ (cl : String → Finset Labels) (st : ExporterState) (m : String), m ∈ METRIC_KEYS →
        ∀ t, (reconcile_labelsets cl st).gauges m t
          = if t ∈ st.known_labelsets m \ cl m then none else st.gauges m t) :=
  removed_project_series_absent match_all upstream_c3a upstream_c3b 0 0 init_state
    [⟨"a", "A"⟩, ⟨"b", "B"⟩] [⟨"a", "A"⟩] METRIC_KEYS.toFinset METRIC_KEYS.toFinset
    { init_state with
        supported_metric_keys := some METRIC_KEYS.toFinset,
        supported_metric_keys_fetched_at := some 0 }
    (refresh_once match_all upstream_c3a 0 init_state).1
    (fun _ => build_measures []) (fun _ => build_measures []) ⟨"b", "B"⟩
    rfl rfl (fun _ _ => rfl) rfl
    (get_supported_cache_hit upstream_c3b 0
      (refresh_once match_all upstream_c3a 0 init_state).1 METRIC_KEYS.toFinset 0
      rfl rfl (by norm_num))
    (fun _ _ => rfl) (by decide) (by decide)

end SonarETL

namespace SonarETL

/-! ## Claim C4 -/

/-- The rename step only removes: a gauge child that was absent stays
absent. -/
lemma rename_cleanup_preserves_none {st : ExporterState} {m : String} {t : Labels}
    (h : st.gauges m t = none) (p : Project) :
    (rename_cleanup p st).gauges m t = none := by
  rw [rename_cleanup_gauges_apply]
  cases st.project_key_to_name p.key with
  | none => exact h
  | some prev =>
    dsimp only
    split
    · rfl
    · exact h

/-- One-project unrolling of the loop when the fetch succeeds. -/
lemma process_projects_singleton (u : Upstream) (sup : Finset String) (p : Project)
    (s : ExporterState) (cl : String → Finset Labels) (a : Aggregates)
    (meas_p : String → Option ℚ)
    (hf : fetch_measures u sup p.key = .ok meas_p) :
    process_projects u sup [p] s cl a =
      ({ rename_cleanup p s with
          gauges := write_project p meas_p (rename_cleanup p s).gauges },
        add_current_labels p cl, accumulate_aggregates meas_p a, true) := by
  rw [process_projects_cons, hf]
  rfl

/-- Splitting off the element at index `i`. -/
lemma take_succ_get (ps : List Project) (i : ℕ) (hi : i < ps.length) :
    ps.take (i + 1) = ps.take i ++ [ps.get ⟨i, hi⟩] := by
  rw [List.take_succ, List.getElem?_eq_getElem hi]
  rfl

/-- The rename invariant threaded through cycle n+1 for a key `k` renamed
from `A` to `B`: either `k` is still tracked under `A` and no `(k, B)`
series exists yet, or the rename cleanup has run and no `(k, A)` series
exists for any configured metric.  Either way `(k, A)` and `(k, B)` never
coexist. -/
def rename_inv (k A B : String) (st : ExporterState) : Prop :=
  (st.project_key_to_name k = some A ∧ ∀ m, st.gauges m (k, B) = none)
  ∨ (∀ m, m ∈ METRIC_KEYS → st.gauges m (k, A) = none)

/-- One loop iteration preserves the rename invariant (keys are unique, so
the only project with key `k` is the renamed one). -/
lemma rename_inv_step (k A B : String) (hAB : A ≠ B) (p : Project)
    (meas_p : String → Option ℚ) (st : ExporterState)
    (hkey : p.key = k → p = (⟨k, B⟩ : Project))
    (hinv : rename_inv k A B st) :
    rename_inv k A B
      { rename_cleanup p st with
        gauges := write_project p meas_p (rename_cleanup p st).gauges } := by
  rcases hinv with ⟨hk, hB⟩ | hA
  · by_cases hpk : p.key = k
    · have hp := hkey hpk
      subst hp
      right
      intro m hm
      show write_project (⟨k, B⟩ : Project) meas_p
        (rename_cleanup (⟨k, B⟩ : Project) st).gauges m (k, A) = none
      rw [write_project_ne (fun hc => hAB (congrArg Prod.snd hc))]
      exact rename_cleanup_removes hk hAB hm
    · left
      constructor
      · show Function.update st.project_key_to_name p.key (some p.name) k = some A
        rw [Function.update_noteq (fun hc => hpk hc.symm)]
        exact hk
      · intro m
        show write_project p meas_p (rename_cleanup p st).gauges m (k, B) = none
        rw [write_project_ne (fun hc => hpk (congrArg Prod.fst hc).symm),
          rename_cleanup_gauges_ne_key (fun hc => hpk hc.symm) st m B]
        exact hB m
  · right
    intro m hm
    have hne : ((k, A) : Labels) ≠ (p.key, p.name) := by
      intro hc
      have h1 : k = p.key := congrArg Prod.fst hc
      have hp := hkey h1.symm
      rw [hp] at hc
      exact hAB (congrArg Prod.snd hc)
    show write_project p meas_p (rename_cleanup p st).gauges m (k, A) = none
    rw [write_project_ne hne]
    exact rename_cleanup_preserves_none (hA m hm) p

/-- The half-step after a rename cleanup and before the write never shows
`(k, A)` and `(k, B)` together. -/
lemma rename_inv_half (k A B : String) (hAB : A ≠ B) (p : Project) (st : ExporterState)
    (hkey : p.key = k → p = (⟨k, B⟩ : Project))
    (hinv : rename_inv k A B st) :
    ∀ m ∈ METRIC_KEYS,
      (rename_cleanup p st).gauges m (k, A) = none
      ∨ (rename_cleanup p st).gauges m (k, B) = none := by
  intro m hm
  rcases hinv with ⟨hk, hB⟩ | hA
  · by_cases hpk : p.key = k
    · have hp := hkey hpk
      subst hp
      exact Or.inl (rename_cleanup_removes hk hAB hm)
    · right
      rw [rename_cleanup_gauges_ne_key (fun hc => hpk hc.symm) st m B]
      exact hB m
  · exact Or.inl (rename_cleanup_preserves_none (hA m hm) p)

/-- The rename invariant holds at every prefix of the per-project loop. -/
lemma process_take_rename_inv (u : Upstream) (sup : Finset String) (ps : List Project)
    (k A B : String) (hAB : A ≠ B) (hmem : (⟨k, B⟩ : Project) ∈ ps)
    (hnodup : (ps.map Project.key).Nodup)
    (meas : Project → String → Option ℚ)
    (hfetch : ∀ p ∈ ps, fetch_measures u sup p.key = .ok (meas p))
    (s0 : ExporterState) (hktn : s0.project_key_to_name k = some A)
    (hB0 : ∀ m, s0.gauges m (k, B) = none) :
    ∀ i, rename_inv k A B
      (process_projects u sup (ps.take i) s0 (fun _ => ∅) init_aggregates).1 := by
  intro i
  induction i with
  | zero => exact Or.inl ⟨hktn, hB0⟩
  | succ i ih =>
    by_cases hi : i < ps.length
    · rcases hpre : process_projects u sup (ps.take i) s0 (fun _ => ∅) init_aggregates
        with ⟨si, cli, aggi, bi⟩
      have hbi : bi = true := by
        have h0 := process_projects_ok u sup meas (ps.take i) s0 (fun _ => ∅)
          init_aggregates (fun p hp => hfetch p (List.take_subset i ps hp))
        rw [hpre] at h0
        exact h0
      subst hbi
      have happ := process_projects_append_ok u sup (ps.take i) [ps.get ⟨i, hi⟩] s0
        (fun _ => ∅) init_aggregates si cli aggi hpre
      rw [take_succ_get ps i hi, happ,
        process_projects_singleton u sup (ps.get ⟨i, hi⟩) si cli aggi
          (meas (ps.get ⟨i, hi⟩)) (hfetch _ (List.get_mem ps i hi))]
      rw [hpre] at ih
      exact rename_inv_step k A B hAB (ps.get ⟨i, hi⟩) (meas (ps.get ⟨i, hi⟩)) si
        (fun hpk => key_inj hnodup (List.get_mem ps i hi) hmem hpk) ih
    · have h1 : ps.take (i + 1) = ps.take i := by
        rw [List.take_of_length_le (Nat.le_of_not_lt hi),
          List.take_of_length_le (Nat.le_succ_of_le (Nat.le_of_not_lt hi))]
      rw [h1]
      exact ih

end SonarETL

namespace SonarETL

/-- Claim C4: when project key `k` is renamed from `A` to `B`, the rename
cleanup removes the old `(k, A)` child for every configured metric in the
very step that precedes the write of `(k, B)` (first conjunct, about the
step function itself); at every intermediate state of the cycle's loop —
after each full iteration, and at the half-step between a rename cleanup
and the following write — `(k, A)` and `(k, B)` never coexist for any
configured metric (second conjunct); and after the cycle no `(k, A)`
series exists while every configured metric holds a `(k, B)` series with
that cycle's fetched value (remaining conjuncts). -/
theorem rename_never_coexists (mk : String → Bool) (u : Upstream) (now : ℚ)
    (s1 : ExporterState) (ps : List Project) (k A B : String) (sup : Finset String)
    (s0 : ExporterState) (meas : Project → String → Option ℚ)
    (hAB : A ≠ B)
    (hkn : s1.project_key_to_name k = some A)
    (hB0 : ∀ m, s1.gauges m (k, B) = none)
    (hps : list_projects mk u.project_pages = .ok ps)
    (hmem : (⟨k, B⟩ : Project) ∈ ps)
    (hnodup : (ps.map Project.key).Nodup)
    (hsup : get_supported_metric_keys u now s1 = .ok (sup, s0))
    (hfetch : ∀ p ∈ ps, fetch_measures u sup p.key = .ok (meas p)) :
    (∀ (st : ExporterState) (p : Project) (prev : String),
        st.project_key_to_name p.key = some prev → prev ≠ p.name →
        ∀ m ∈ METRIC_KEYS, (rename_cleanup p st).gauges m (p.key, prev) = none)
    ∧ (∀ i m, m ∈ METRIC_KEYS →
        ((process_projects u sup (ps.take i) s0 (fun _ => ∅) init_aggregates).1.gauges
            m (k, A) = none
          ∨ (process_projects u sup (ps.take i) s0 (fun _ => ∅) init_aggregates).1.gauges
              m (k, B) = none)
        ∧ ∀ hi : i < ps.length,
            ((rename_cleanup (ps.get ⟨i, hi⟩)
                (process_projects u sup (ps.take i) s0 (fun _ => ∅) init_aggregates).1).gauges
                m (k, A) = none
              ∨ (rename_cleanup (ps.get ⟨i, hi⟩)
                  (process_projects u sup (ps.take i) s0 (fun _ => ∅) init_aggregates).1).gauges
                  m (k, B) = none))
    ∧ (refresh_once mk u now s1).2 = true
    ∧ (∀ m ∈ METRIC_KEYS,
        (refresh_once mk u now s1).1.gauges m (k, A) = none
        ∧ (refresh_once mk u now s1).1.gauges m (k, B)
            = some (measure_gval (meas ⟨k, B⟩ m))) := by
  obtain ⟨hg0, -, hkt0, -⟩ := get_supported_fields u now s1 sup s0 hsup
  have hktn0 : s0.project_key_to_name k = some A := by
    rw [hkt0]
    exact hkn
  have hB00 : ∀ m, s0.gauges m (k, B) = none := fun m => by
    rw [hg0]
    exact hB0 m
  have hinv := process_take_rename_inv u sup ps k A B hAB hmem hnodup meas hfetch s0
    hktn0 hB00
  obtain ⟨l1, l2, hdecomp⟩ := List.append_of_mem hmem
  have hnd2 : (ps.map Project.key).Nodup := hnodup
  rw [hdecomp, List.map_append, List.map_cons] at hnd2
  have hk2 : k ∉ l2.map Project.key := (List.nodup_cons.mp hnd2.of_append_right).1
  have hk1 : k ∉ l1.map Project.key := by
    have hd := List.disjoint_of_nodup_append hnd2
    intro hc
    exact hd hc (List.mem_cons_self _ _)
  rcases hL : process_projects u sup l1 s0 (fun _ => ∅) init_aggregates
    with ⟨sL, clL, aggL, bL⟩
  have hbL : bL = true := by
    have h0 := process_projects_ok u sup meas l1 s0 (fun _ => ∅) init_aggregates
      (fun p hp => hfetch p (by rw [hdecomp]; exact List.mem_append_left _ hp))
    rw [hL] at h0
    exact h0
  subst hbL
  obtain ⟨hfrL, hktL⟩ := process_projects_frame u sup l1 s0 (fun _ => ∅)
    init_aggregates hk1
  rw [hL] at hfrL hktL
  have hfstar : fetch_measures u sup (⟨k, B⟩ : Project).key = .ok (meas ⟨k, B⟩) :=
    hfetch _ (by rw [hdecomp]; exact List.mem_append_right _ (List.mem_cons_self _ _))
  have hfull : process_projects u sup ps s0 (fun _ => ∅) init_aggregates
      = process_projects u sup l2
          { rename_cleanup ⟨k, B⟩ sL with
            gauges := write_project ⟨k, B⟩ (meas ⟨k, B⟩)
              (rename_cleanup ⟨k, B⟩ sL).gauges }
          (add_current_labels ⟨k, B⟩ clL)
          (accumulate_aggregates (meas ⟨k, B⟩) aggL) := by
    rw [hdecomp, process_projects_append_ok u sup l1 ((⟨k, B⟩ : Project) :: l2) s0
      (fun _ => ∅) init_aggregates sL clL aggL hL,
      process_projects_cons, hfstar]
  have hMkA : ∀ m, m ∈ METRIC_KEYS →
      ({ rename_cleanup ⟨k, B⟩ sL with
          gauges := write_project ⟨k, B⟩ (meas ⟨k, B⟩)
            (rename_cleanup ⟨k, B⟩ sL).gauges } : ExporterState).gauges m (k, A)
        = none := by
    intro m hm
    show write_project (⟨k, B⟩ : Project) (meas ⟨k, B⟩)
      (rename_cleanup (⟨k, B⟩ : Project) sL).gauges m (k, A) = none
    rw [write_project_ne (fun hc => hAB (congrArg Prod.snd hc))]
    refine rename_cleanup_removes ?_ hAB hm
    rw [hktL]
    exact hktn0
  have hMkB : ∀ m, m ∈ METRIC_KEYS →
      ({ rename_cleanup ⟨k, B⟩ sL with
          gauges := write_project ⟨k, B⟩ (meas ⟨k, B⟩)
            (rename_cleanup ⟨k, B⟩ sL).gauges } : ExporterState).gauges m (k, B)
        = some (measure_gval (meas ⟨k, B⟩ m)) := by
    intro m hm
    show write_project (⟨k, B⟩ : Project) (meas ⟨k, B⟩)
      (rename_cleanup (⟨k, B⟩ : Project) sL).gauges m (k, B)
      = some (measure_gval (meas ⟨k, B⟩ m))
    exact write_project_self _ _ _ hm
  obtain ⟨hfr2, -⟩ := process_projects_frame u sup l2
    { rename_cleanup ⟨k, B⟩ sL with
      gauges := write_project ⟨k, B⟩ (meas ⟨k, B⟩)
        (rename_cleanup ⟨k, B⟩ sL).gauges }
    (add_current_labels ⟨k, B⟩ clL)
    (accumulate_aggregates (meas ⟨k, B⟩) aggL) hk2
  rcases hproc : process_projects u sup ps s0 (fun _ => ∅) init_aggregates
    with ⟨sF, clF, aggF, bF⟩
  have hbF : bF = true := by
    have h0 := process_projects_ok u sup meas ps s0 (fun _ => ∅) init_aggregates hfetch
    rw [hproc] at h0
    exact h0
  subst hbF
  have hsF : sF = (process_projects u sup l2
      { rename_cleanup ⟨k, B⟩ sL with
        gauges := write_project ⟨k, B⟩ (meas ⟨k, B⟩)
          (rename_cleanup ⟨k, B⟩ sL).gauges }
      (add_current_labels ⟨k, B⟩ clL)
      (accumulate_aggregates (meas ⟨k, B⟩) aggL)).1 := by
    rw [← hfull, hproc]
  have heqF := refresh_once_ok_eq mk u now s1 ps sup s0 sF clF aggF hps hsup hproc
  refine ⟨fun st p prev hprev hne m hm => rename_cleanup_removes hprev hne hm,
    ?_, by rw [heqF], ?_⟩
  · intro i m hm
    constructor
    · rcases hinv i with ⟨-, hB⟩ | hA
      · exact Or.inr (hB m)
      · exact Or.inl (hA m hm)
    · intro hi
      exact rename_inv_half k A B hAB (ps.get ⟨i, hi⟩) _
        (fun hpk => key_inj hnodup (List.get_mem ps i hi) hmem hpk) (hinv i) m hm
  · intro m hm
    have hgA : sF.gauges m (k, A) = none := by
      rw [hsF]
      exact (hfr2 m A).trans (hMkA m hm)
    have hgB : sF.gauges m (k, B) = some (measure_gval (meas ⟨k, B⟩ m)) := by
      rw [hsF]
      exact (hfr2 m B).trans (hMkB m hm)
    have hclF := process_projects_cl u sup ps s0 (fun _ => ∅) init_aggregates
      (by rw [hproc]) m
    rw [hproc] at hclF
    dsimp only at hclF
    have htBin : (k, B) ∈ clF m := by
      rw [hclF, if_pos hm]
      refine Finset.mem_union_right _ ?_
      simp only [label_tuples, List.mem_toFinset, List.mem_map]
      exact ⟨⟨k, B⟩, hmem, rfl⟩
    rw [heqF]
    constructor
    · show (if m ∈ METRIC_KEYS ∧ (k, A) ∈ sF.known_labelsets m \ clF m then none
            else sF.gauges m (k, A)) = none
      by_cases hc : m ∈ METRIC_KEYS ∧ (k, A) ∈ sF.known_labelsets m \ clF m
      · rw [if_pos hc]
      · rw [if_neg hc]
        exact hgA
    · show (if m ∈ METRIC_KEYS ∧ (k, B) ∈ sF.known_labelsets m \ clF m then none
            else sF.gauges m (k, B)) = some (measure_gval (meas ⟨k, B⟩ m))
      rw [if_neg, hgB]
      rintro ⟨-, hmem2⟩
      exact (Finset.mem_sdiff.mp hmem2).2 htBin

end SonarETL

namespace SonarETL

/-- Upstream for the C4 witness (the spec's Scenario B): the single project
`k`, now named `B`, previously known as `A`. -/
def upstream_c4 : Upstream where
  project_pages := [.ok [⟨some "k", some "B"⟩]]
  metric_pages := []
  measures := fun _ _ => .ok []

/-- Exporter state entering the rename cycle: key `k` tracked under the old
name `A`, no series for `(k, B)` yet. -/
def state_c4 : ExporterState :=
  { init_state with
    project_key_to_name := Function.update (fun _ => none) "k" (some "A") }

/-- Witness for C4 at the concrete rename scenario. -/
theorem rename_never_coexists_witness :
    (∀ (st : ExporterState) (p : Project) (prev : String),
        st.project_key_to_name p.key = some prev → prev ≠ p.name →
        ∀ m ∈ METRIC_KEYS, (rename_cleanup p st).gauges m (p.key, prev) = none)
    ∧ (∀ i m, m ∈ METRIC_KEYS →
        ((process_projects upstream_c4 METRIC_KEYS.toFinset
            (([⟨"k", "B"⟩] : List Project).take i)
            { state_c4 with
                supported_metric_keys := some METRIC_KEYS.toFinset,
                supported_metric_keys_fetched_at := some 0 }
            (fun _ => ∅) init_aggregates).1.gauges m ("k", "A") = none
          ∨ (process_projects upstream_c4 METRIC_KEYS.toFinset
              (([⟨"k", "B"⟩] : List Project).take i)
              { state_c4 with
                  supported_metric_keys := some METRIC_KEYS.toFinset,
                  supported_metric_keys_fetched_at := some 0 }
              (fun _ => ∅) init_aggregates).1.gauges m ("k", "B") = none)
        ∧ ∀ hi : i < ([⟨"k", "B"⟩] : List Project).length,
            ((rename_cleanup (([⟨"k", "B"⟩] : List Project).get ⟨i, hi⟩)
                (process_projects upstream_c4 METRIC_KEYS.toFinset
                  (([⟨"k", "B"⟩] : List Project).take i)
                  { state_c4 with
                      supported_metric_keys := some METRIC_KEYS.toFinset,
                      supported_metric_keys_fetched_at := some 0 }
                  (fun _ => ∅) init_aggregates).1).gauges m ("k", "A") = none
              ∨ (rename_cleanup (([⟨"k", "B"⟩] : List Project).get ⟨i, hi⟩)
                  (process_projects upstream_c4 METRIC_KEYS.toFinset
                    (([⟨"k", "B"⟩] : List Project).take i)
                    { state_c4 with
                        supported_metric_keys := some METRIC_KEYS.toFinset,
                        supported_metric_keys_fetched_at := some 0 }
                    (fun _ => ∅) init_aggregates).1).gauges m ("k", "B") = none))
    ∧ (refresh_once match_all upstream_c4 0 state_c4).2 = true
    ∧ (∀ m ∈ METRIC_KEYS,
        (refresh_once match_all upstream_c4 0 state_c4).1.gauges m ("k", "A") = none
        ∧ (refresh_once match_all upstream_c4 0 state_c4).1.gauges m ("k", "B")
            = some (measure_gval (build_measures [] m))) :=
  rename_never_coexists match_all upstream_c4 0 state_c4 [⟨"k", "B"⟩] "k" "A" "B"
    METRIC_KEYS.toFinset
    { state_c4 with
        supported_metric_keys := some METRIC_KEYS.toFinset,
        supported_metric_keys_fetched_at := some 0 }
    (fun _ => build_measures []) (by decide) rfl (fun _ => rfl) rfl (by decide)
    (by decide) rfl (fun _ _ => rfl)

end SonarETL

namespace SonarETL

/-! ## Claim C7 -/

/-- The loop never touches a gauge family outside the configured metric
keys. -/
lemma process_projects_not_metric (u : Upstream) (sup : Finset String) {m : String}
    (hm : m ∉ METRIC_KEYS) :
    ∀ ps s cl a t, (process_projects u sup ps s cl a).1.gauges m t = s.gauges m t
  | [], _, _, _, _ => rfl
  | p :: rest, s, cl, a, t => by
    rw [process_projects_cons]
    cases hf : fetch_measures u sup p.key with
    | error e => exact rename_cleanup_not_metric hm p s t
    | ok meas =>
      dsimp only
      rw [process_projects_not_metric u sup hm rest _ _ _ t]
      show write_project p meas (rename_cleanup p s).gauges m t = s.gauges m t
      rw [write_project_not_metric hm, rename_cleanup_not_metric hm]

/-- Claim C7: running the cycle twice against an unchanged upstream (same
catalog, same negotiated supported keys, same measures) leaves every
per-project series, every recorded label set, and every aggregate exactly
as the first cycle left them. -/
theorem refresh_once_idempotent (mk : String → Bool) (u : Upstream) (n1 n2 : ℚ)
    (s : ExporterState) (ps : List Project) (sup : Finset String)
    (s0 s2b : ExporterState) (meas : Project → String → Option ℚ)
    (hps : list_projects mk u.project_pages = .ok ps)
    (hnodup : (ps.map Project.key).Nodup)
    (hsup1 : get_supported_metric_keys u n1 s = .ok (sup, s0))
    (hfetch : ∀ p ∈ ps, fetch_measures u sup p.key = .ok (meas p))
    (hsup2 : get_supported_metric_keys u n2 (refresh_once mk u n1 s).1
      = .ok (sup, s2b)) :
    (refresh_once mk u n1 s).2 = true
    ∧ (refresh_once mk u n2 (refresh_once mk u n1 s).1).2 = true
    ∧ (∀ m t, (refresh_once mk u n2 (refresh_once mk u n1 s).1).1.gauges m t
        = (refresh_once mk u n1 s).1.gauges m t)
    ∧ (∀ m, (refresh_once mk u n2 (refresh_once mk u n1 s).1).1.known_labelsets m
        = (refresh_once mk u n1 s).1.known_labelsets m)
    ∧ (refresh_once mk u n2 (refresh_once mk u n1 s).1).1.aggregates
        = (refresh_once mk u n1 s).1.aggregates := by
  rcases hproc1 : process_projects u sup ps s0 (fun _ => ∅) init_aggregates
    with ⟨sA, clA, aggA, b1⟩
  have hb1 : b1 = true := by
    have h0 := process_projects_ok u sup meas ps s0 (fun _ => ∅) init_aggregates hfetch
    rw [hproc1] at h0
    exact h0
  subst hb1
  have heq1 := refresh_once_ok_eq mk u n1 s ps sup s0 sA clA aggA hps hsup1 hproc1
  rcases hproc2 : process_projects u sup ps s2b (fun _ => ∅) init_aggregates
    with ⟨sB, clB, aggB, b2⟩
  have hb2 : b2 = true := by
    have h0 := process_projects_ok u sup meas ps s2b (fun _ => ∅) init_aggregates hfetch
    rw [hproc2] at h0
    exact h0
  subst hb2
  have heq2 := refresh_once_ok_eq mk u n2 (refresh_once mk u n1 s).1 ps sup s2b sB clB
    aggB hps hsup2 hproc2
  have hclA : ∀ m, m ∈ METRIC_KEYS → clA m = label_tuples ps := by
    intro m hm
    have h := process_projects_cl u sup ps s0 (fun _ => ∅) init_aggregates
      (by rw [hproc1]) m
    rw [hproc1] at h
    dsimp only at h
    rw [h, if_pos hm, Finset.empty_union]
  have hclB : ∀ m, m ∈ METRIC_KEYS → clB m = label_tuples ps := by
    intro m hm
    have h := process_projects_cl u sup ps s2b (fun _ => ∅) init_aggregates
      (by rw [hproc2]) m
    rw [hproc2] at h
    dsimp only at h
    rw [h, if_pos hm, Finset.empty_union]
  obtain ⟨hg2, hk2, hkt2, -⟩ :=
    get_supported_fields u n2 (refresh_once mk u n1 s).1 sup s2b hsup2
  have hR1known : ∀ m, (refresh_once mk u n1 s).1.known_labelsets m
      = if m ∈ METRIC_KEYS then clA m else sA.known_labelsets m := by
    intro m
    rw [heq1]
    rfl
  have hR1gauges : ∀ m t, (refresh_once mk u n1 s).1.gauges m t
      = if m ∈ METRIC_KEYS ∧ t ∈ sA.known_labelsets m \ clA m then none
        else sA.gauges m t := by
    intro m t
    rw [heq1]
    rfl
  have hR1agg : (refresh_once mk u n1 s).1.aggregates = aggA := by
    rw [heq1]
    rfl
  have hR1ktn : ∀ p ∈ ps, (refresh_once mk u n1 s).1.project_key_to_name p.key
      = some p.name := by
    intro p hp
    rw [heq1]
    show (if p.key ∈ ps.map Project.key then sA.project_key_to_name p.key else none)
      = some p.name
    rw [if_pos (List.mem_map_of_mem Project.key hp)]
    have h := process_projects_ktn_written u sup ps s0 (fun _ => ∅) init_aggregates p
      hnodup hp (by rw [hproc1])
    rw [hproc1] at h
    exact h
  have haggA : aggA = ps.foldl (fun acc p => accumulate_aggregates (meas p) acc)
      init_aggregates := by
    have h := process_projects_agg u sup meas ps s0 (fun _ => ∅) init_aggregates hfetch
    rw [hproc1] at h
    exact h
  have haggB : aggB = ps.foldl (fun acc p => accumulate_aggregates (meas p) acc)
      init_aggregates := by
    have h := process_projects_agg u sup meas ps s2b (fun _ => ∅) init_aggregates hfetch
    rw [hproc2] at h
    exact h
  have hknB : sB.known_labelsets = s2b.known_labelsets := by
    have hf := process_projects_fields u sup ps s2b (fun _ => ∅) init_aggregates
    rw [hproc2] at hf
    exact hf.1
  refine ⟨by rw [heq1], by rw [heq2], ?_, ?_, ?_⟩
  · intro m t
    rw [heq2]
    show (if m ∈ METRIC_KEYS ∧ t ∈ sB.known_labelsets m \ clB m then none
          else sB.gauges m t) = (refresh_once mk u n1 s).1.gauges m t
    by_cases hm : m ∈ METRIC_KEYS
    · by_cases ht : t ∈ label_tuples ps
      · have htl := ht
        simp only [label_tuples, List.mem_toFinset, List.mem_map] at htl
        obtain ⟨p, hp, htp⟩ := htl
        subst htp
        have hB := process_projects_written u sup ps s2b (fun _ => ∅) init_aggregates p
          (meas p) hnodup hp (hfetch p hp) (by rw [hproc2]) m hm
        rw [hproc2] at hB
        dsimp only at hB
        have hA := process_projects_written u sup ps s0 (fun _ => ∅) init_aggregates p
          (meas p) hnodup hp (hfetch p hp) (by rw [hproc1]) m hm
        rw [hproc1] at hA
        dsimp only at hA
        have hc2 : ¬(m ∈ METRIC_KEYS
            ∧ (p.key, p.name) ∈ sB.known_labelsets m \ clB m) := by
          rintro ⟨-, hmem⟩
          refine (Finset.mem_sdiff.mp hmem).2 ?_
          rw [hclB m hm]
          exact ht
        have hc1 : ¬(m ∈ METRIC_KEYS
            ∧ (p.key, p.name) ∈ sA.known_labelsets m \ clA m) := by
          rintro ⟨-, hmem⟩
          refine (Finset.mem_sdiff.mp hmem).2 ?_
          rw [hclA m hm]
          exact ht
        rw [if_neg hc2, hB, hR1gauges, if_neg hc1, hA]
      · have hs2bktn : ∀ p ∈ ps, s2b.project_key_to_name p.key = some p.name := by
          intro p hp
          rw [hkt2]
          exact hR1ktn p hp
        have hnorename := process_projects_no_rename u sup ps s2b (fun _ => ∅)
          init_aggregates hnodup hs2bktn m t ht
        rw [hproc2] at hnorename
        dsimp only at hnorename
        have hin2 : ¬(m ∈ METRIC_KEYS ∧ t ∈ sB.known_labelsets m \ clB m) := by
          rintro ⟨-, hmem⟩
          have h1 := (Finset.mem_sdiff.mp hmem).1
          rw [hknB, hk2, hR1known m, if_pos hm, hclA m hm] at h1
          exact ht h1
        rw [if_neg hin2, hnorename, hg2]
    · have h2 := process_projects_not_metric u sup hm ps s2b (fun _ => ∅)
        init_aggregates t
      rw [hproc2] at h2
      dsimp only at h2
      rw [if_neg (fun hc => hm hc.1), h2, hg2]
  · intro m
    rw [heq2]
    show (if m ∈ METRIC_KEYS then clB m else sB.known_labelsets m)
      = (refresh_once mk u n1 s).1.known_labelsets m
    by_cases hm : m ∈ METRIC_KEYS
    · rw [if_pos hm, hclB m hm, hR1known, if_pos hm, hclA m hm]
    · rw [if_neg hm, hknB, hk2]
  · rw [heq2]
    show aggB = (refresh_once mk u n1 s).1.aggregates
    rw [hR1agg, haggA, haggB]

end SonarETL

namespace SonarETL

/-- Upstream for the C7 witness: one project with one measure, unchanged
between the two cycles. -/
def upstream_c7 : Upstream where
  project_pages := [.ok [⟨some "a", some "Alpha"⟩]]
  metric_pages := []
  measures := fun _ _ => .ok [⟨some "ncloc", some "100"⟩]

/-- Witness for C7: the second cycle over the unchanged upstream leaves the
store exactly as the first cycle left it. -/
theorem refresh_once_idempotent_witness :
    (refresh_once match_all upstream_c7 0 init_state).2 = true
    ∧ (refresh_once match_all upstream_c7 0
        (refresh_once match_all upstream_c7 0 init_state).1).2 = true
    ∧ (∀ m t, (refresh_once match_all upstream_c7 0
          (refresh_once match_all upstream_c7 0 init_state).1).1.gauges m t
        = (refresh_once match_all upstream_c7 0 init_state).1.gauges m t)
    ∧ (∀ m, (refresh_once match_all upstream_c7 0
          (refresh_once match_all upstream_c7 0 init_state).1).1.known_labelsets m
        = (refresh_once match_all upstream_c7 0 init_state).1.known_labelsets m)
    ∧ (refresh_once match_all upstream_c7 0
        (refresh_once match_all upstream_c7 0 init_state).1).1.aggregates
      = (refresh_once match_all upstream_c7 0 init_state).1.aggregates :=
  refresh_once_idempotent match_all upstream_c7 0 0 init_state [⟨"a", "Alpha"⟩]
    METRIC_KEYS.toFinset
    { init_state with
        supported_metric_keys := some METRIC_KEYS.toFinset,
        supported_metric_keys_fetched_at := some 0 }
    (refresh_once match_all upstream_c7 0 init_state).1
    (fun _ => build_measures [⟨some "ncloc", some "100"⟩])
    rfl (by decide) rfl (fun _ _ => rfl)
    (get_supported_cache_hit upstream_c7 0
      (refresh_once match_all upstream_c7 0 init_state).1 METRIC_KEYS.toFinset 0
      rfl rfl (by norm_num))

end SonarETL
